import Mathlib

/-!
Verification of the offer/range catalog and purchase-settlement core of
`Minter_Marketplace` (src/smart-contracts/contracts/Marketplaces/MarketplaceMinter.sol).

Shallow embedding conventions:
* Ethereum addresses are modelled as `Nat` (0 is `address(0)`).
* `uint256` values are modelled as `Nat`; Solidity 0.8 *checked* arithmetic is
  modelled explicitly: subtractions and multiplications that can revert go
  through `csub` / `cmul`, and the `uint16` addition `treasuryFee + nodeFee`
  goes through `cadd16` (reverting ⇒ `Except.error .ArithOverflow`).
  Counter increments (`openSales++`, array growth) cannot overflow in any
  reachable execution and are modelled as plain `Nat` addition.
* A reverting call is `Except.error e`; by EVM semantics a revert leaves the
  contract state unchanged, which `applyResult` makes explicit.
* External collaborators (the hasRole interface of the ERC721 collection,
  `getCollection`, `supportsInterface`, `royaltyInfo`) are a record of pure
  functions `ExtEnv`; the caller (`msg.sender`) of role-gated operations is
  folded into the two role predicates.
* Value transfers, events and the external mint call are recorded in an
  ordered `List Action` trace, in the exact order the contract performs them.
-/

namespace MinterMarketplace

/-- Errors: one constructor per distinct `require` message / checked-arithmetic
panic of the contract. -/
inductive MErr where
  | NotAuthorizedAsMinter      -- message: This Marketplace is not a Minter
  | NotAuthorizedAsCreator     -- message: Sender is not the creator
  | OfferAlreadyExists         -- message: An offer already exists
  | RangeLengthMismatch        -- message: ranges should have the same length
  | NoMintableSupply           -- message: Cannot mint more tokens from this Product
  | InvalidRangeBounds         -- message: starting token has to be less than the ending token
  | RangeExpansionNotAllowed   -- message: New limits must be within the previous limits
  | NoOfferForCollection       -- message: Contract address does not have an offer associated
  | InvalidOffer               -- message: Invalid Collection Selected
  | InvalidRange               -- message: Invalid range
  | RangeSoldOut               -- message: Cannot mint more tokens for this range
  | TokenOutsideRange          -- message: Token does not belong in that offer range
  | InsufficientFunds          -- message: Insuficient Funds
  | IndexOutOfBounds           -- array-access panic
  | ArithUnderflow             -- checked-subtraction panic (0x11)
  | ArithOverflow              -- checked-addition/multiplication panic (0x11)
deriving Repr, DecidableEq

/-- The `struct offer` of the contract (parallel arrays, exactly as stored). -/
structure Offer where
  contractAddress : Nat
  nodeAddress : Nat
  productIndex : Nat
  tokenRangeStart : List Nat
  tokenRangeEnd : List Nat
  tokensAllowed : List Nat
  rangePrice : List Nat
  rangeName : List String
deriving Repr, DecidableEq

/-- Contract storage: the `_contractToOffer` mapping (association list,
absent keys read as the default 0, as a Solidity mapping does), the offer
catalog, and the fee configuration. -/
structure MarketState where
  contractToOfferMap : List (Nat × Nat)
  offerCatalog : List Offer
  treasury : Nat
  openSales : Nat
  treasuryFee : Nat
  nodeFee : Nat
deriving Repr, DecidableEq

/-- External collaborators, as pure functions of the collection address
(and the purchase parameters for `royaltyInfo`). -/
structure ExtEnv where
  hasMinterRole : Nat → Bool
  hasCreatorRole : Nat → Bool
  mintableTokensLeft : Nat → Nat → Nat
  supportsRoyaltyInterface : Nat → Bool
  royaltyReceiver : Nat → Nat → String → Nat

/-- Observable effects of an operation, in execution order. -/
inductive Action where
  | transferCreator (receiver amount : Nat)
  | transferRefund (receiver amount : Nat)
  | transferTreasury (receiver amount : Nat)
  | transferNode (receiver amount : Nat)
  | decrementSupply (catalogIndex rangeIndex : Nat)
  | soldOutEvent (contractAddress catalogIndex rangeIndex : Nat)
  | mintCall (recipient productIndex tokenIndex : Nat)
  | tokenMintedEvent (owner contractAddress catalogIndex rangeIndex tokenIndex : Nat)
  | appendedRangeEvent (contractAddress productIndex offerIndex rangeIndex startToken endToken price : Nat) (name : String)
  | addedOfferEvent (contractAddress productIndex rangesCreated catalogIndex : Nat)
  | updatedOfferEvent (contractAddress offerIndex rangeIndex tokens price : Nat) (name : String)
deriving Repr, DecidableEq

/-- Solidity mapping read: stored value, or the zero default. -/
def lookupDefault (m : List (Nat × Nat)) (k : Nat) : Nat :=
  match m.find? (fun p => p.1 == k) with
  | some p => p.2
  | none => 0

/-- Solidity mapping write. -/
def insertMap (m : List (Nat × Nat)) (k v : Nat) : List (Nat × Nat) :=
  (k, v) :: m.filter (fun p => p.1 != k)

/-- Checked `uint256` subtraction (reverts on underflow). -/
def csub (a b : Nat) : Except MErr Nat :=
  if b ≤ a then Except.ok (a - b) else Except.error MErr.ArithUnderflow

/-- Checked `uint16` addition (used for `treasuryFee + nodeFee`; reverts when
the sum does not fit in 16 bits). -/
def cadd16 (a b : Nat) : Except MErr Nat :=
  if a + b ≤ 65535 then Except.ok (a + b) else Except.error MErr.ArithOverflow

/-- Checked `uint256` multiplication (reverts on overflow past `2^256 - 1`). -/
def cmul (a b : Nat) : Except MErr Nat :=
  if a * b ≤ 2 ^ 256 - 1 then Except.ok (a * b) else Except.error MErr.ArithOverflow

/-- The result of an external (state-mutating) call: either the new state plus
the trace of effects, or the revert error. -/
abbrev MResult := Except MErr (MarketState × List Action)

/-- EVM revert semantics: a reverted call leaves storage unchanged. -/
def applyResult (r : MResult) (s : MarketState) : MarketState :=
  match r with
  | Except.ok (s', _) => s'
  | Except.error _ => s

/-- Model of `initialize(_treasury, _treasuryFee, _nodeFee)`. -/
def initMarket (tre tFee nFee : Nat) : MarketState :=
  { contractToOfferMap := [], offerCatalog := [], treasury := tre,
    openSales := 0, treasuryFee := tFee, nodeFee := nFee }

/-- Model of `validateRoles(tokenAddress)`: the marketplace must hold MINTER and the
sender must hold CREATOR on the ERC721. -/
def validateRoles (env : ExtEnv) (tokenAddress : Nat) : Except MErr Unit :=
  if env.hasMinterRole tokenAddress then
    if env.hasCreatorRole tokenAddress then Except.ok ()
    else Except.error MErr.NotAuthorizedAsCreator
  else Except.error MErr.NotAuthorizedAsMinter

/-- Model of `_validateRangeInfo(start, end)`: `require(start < end)`. -/
def validateRangeInfo (startToken endToken : Nat) : Except MErr Unit :=
  if startToken < endToken then Except.ok ()
  else Except.error MErr.InvalidRangeBounds

/-- Model of the `contractToOffer(erc721Address)` view:
`require(length > 0 && offerCatalog[_contractToOffer[a]].contractAddress == a)`. -/
def contractToOfferView (s : MarketState) (erc721Address : Nat) : Except MErr Nat :=
  if 0 < s.offerCatalog.length then
    match s.offerCatalog[lookupDefault s.contractToOfferMap erc721Address]? with
    | some o =>
        if o.contractAddress = erc721Address then
          Except.ok (lookupDefault s.contractToOfferMap erc721Address)
        else Except.error MErr.NoOfferForCollection
    | none => Except.error MErr.IndexOutOfBounds
  else Except.error MErr.NoOfferForCollection

/-- Model of `_appendOfferRange(offerIndex, startToken, endToken, price, name)`:
pushes the range fields (with `tokensAllowed = (endToken - startToken) + 1`),
emits `AppendedRange`, increments `openSales`. -/
def appendOfferRangeInternal (s : MarketState) (offerIndex startToken endToken price : Nat)
    (name : String) : MResult :=
  match s.offerCatalog[offerIndex]? with
  | none => Except.error MErr.IndexOutOfBounds
  | some sel => do
    let span ← csub endToken startToken
    let sel' : Offer := { sel with
      tokenRangeStart := sel.tokenRangeStart ++ [startToken],
      tokenRangeEnd := sel.tokenRangeEnd ++ [endToken],
      rangePrice := sel.rangePrice ++ [price],
      tokensAllowed := sel.tokensAllowed ++ [span + 1],
      rangeName := sel.rangeName ++ [name] }
    Except.ok ({ s with offerCatalog := s.offerCatalog.set offerIndex sel',
                        openSales := s.openSales + 1 },
      [Action.appendedRangeEvent sel.contractAddress sel.productIndex offerIndex
        (sel'.rangeName.length - 1) startToken endToken price name])

/-- One tuple per range of a batch listing: (start, end, price, name). -/
def zip4 : List Nat → List Nat → List Nat → List String → List (Nat × Nat × Nat × String)
  | a :: as, b :: bs, c :: cs, d :: ds => (a, b, c, d) :: zip4 as bs cs ds
  | _, _, _, _ => []

/-- The range-creation loop shared by `addOffer` and `appendOfferRangeBatch`:
for each tuple, `_validateRangeInfo` then `_appendOfferRange`. -/
def appendRangesLoop (offerIndex : Nat) :
    List (Nat × Nat × Nat × String) → MarketState → MResult
  | [], s => Except.ok (s, [])
  | (st, en, pr, nm) :: rest, s => do
    let _ ← validateRangeInfo st en
    let (s1, a1) ← appendOfferRangeInternal s offerIndex st en pr nm
    let (s2, a2) ← appendRangesLoop offerIndex rest s1
    Except.ok (s2, a1 ++ a2)

/-- The freshly pushed offer of `addOffer` after its three field assignments
(`offerCatalog.push()` plus `contractAddress`, `nodeAddress`, `productIndex`). -/
def newOfferRecord (tokenAddress nodeAddress productIndex : Nat) : Offer :=
  { contractAddress := tokenAddress, nodeAddress := nodeAddress,
    productIndex := productIndex, tokenRangeStart := [], tokenRangeEnd := [],
    tokensAllowed := [], rangePrice := [], rangeName := [] }

/-- Model of `addOffer(_tokenAddress, _productIndex, starts, ends, prices, names, _nodeAddress)`. -/
def addOffer (env : ExtEnv) (s : MarketState) (tokenAddress productIndex : Nat)
    (rangeStartToken rangeEndToken rangePriceArr : List Nat) (rangeNameArr : List String)
    (nodeAddress : Nat) : MResult := do
  let _ ← validateRoles env tokenAddress
  let _ ←
    if s.offerCatalog.length ≠ 0 then
      match s.offerCatalog[lookupDefault s.contractToOfferMap tokenAddress]? with
      | none => Except.error MErr.IndexOutOfBounds
      | some o =>
          if o.contractAddress ≠ 0 then Except.error MErr.OfferAlreadyExists
          else Except.ok ()
    else Except.ok ()
  let _ ←
    if rangeStartToken.length = rangeEndToken.length ∧
       rangePriceArr.length = rangeStartToken.length ∧
       rangeNameArr.length = rangePriceArr.length then (Except.ok () : Except MErr Unit)
    else Except.error MErr.RangeLengthMismatch
  let _ ←
    if 0 < env.mintableTokensLeft tokenAddress productIndex then (Except.ok () : Except MErr Unit)
    else Except.error MErr.NoMintableSupply
  let s1 : MarketState := { s with
    offerCatalog := s.offerCatalog ++ [newOfferRecord tokenAddress nodeAddress productIndex] }
  let (s2, acts) ← appendRangesLoop (s1.offerCatalog.length - 1)
    (zip4 rangeStartToken rangeEndToken rangePriceArr rangeNameArr) s1
  let s3 : MarketState :=
    { s2 with contractToOfferMap := insertMap s2.contractToOfferMap tokenAddress (s2.offerCatalog.length - 1) }
  Except.ok (s3, acts ++ [Action.addedOfferEvent tokenAddress productIndex
    rangeNameArr.length (s3.offerCatalog.length - 1)])

/-- Model of `updateOfferRange(offerIndex, rangeIndex, startToken, endToken, price, name)`. -/
def updateOfferRange (env : ExtEnv) (s : MarketState)
    (offerIndex rangeIndex startToken endToken price : Nat) (name : String) : MResult :=
  match s.offerCatalog[offerIndex]? with
  | none => Except.error MErr.IndexOutOfBounds
  | some sel =>
    match sel.tokenRangeEnd[rangeIndex]?, sel.tokenRangeStart[rangeIndex]? with
    | some oldEnd, some oldStart => do
      let _ ←
        if endToken ≤ oldEnd ∧ oldStart ≤ startToken then (Except.ok () : Except MErr Unit)
        else Except.error MErr.RangeExpansionNotAllowed
      let _ ← validateRoles env sel.contractAddress
      let _ ← validateRangeInfo startToken endToken
      match sel.tokensAllowed[rangeIndex]? with
      | none => Except.error MErr.IndexOutOfBounds
      | some oldAllowed => do
        let oldSpan ← csub oldEnd oldStart
        let newSpan ← csub endToken startToken
        let delta ← csub oldSpan newSpan
        let newAllowed ← csub oldAllowed delta
        -- the assignments to `rangePrice[rangeIndex]` / `rangeName[rangeIndex]`
        -- are the first accesses to those arrays and panic when out of bounds
        match sel.rangePrice[rangeIndex]?, sel.rangeName[rangeIndex]? with
        | some _, some _ =>
          let sel' : Offer := { sel with
            tokensAllowed := sel.tokensAllowed.set rangeIndex newAllowed,
            tokenRangeStart := sel.tokenRangeStart.set rangeIndex startToken,
            tokenRangeEnd := sel.tokenRangeEnd.set rangeIndex endToken,
            rangePrice := sel.rangePrice.set rangeIndex price,
            rangeName := sel.rangeName.set rangeIndex name }
          Except.ok ({ s with offerCatalog := s.offerCatalog.set offerIndex sel' },
            [Action.updatedOfferEvent sel.contractAddress offerIndex rangeIndex newAllowed price name])
        | _, _ => Except.error MErr.IndexOutOfBounds
    | _, _ => Except.error MErr.IndexOutOfBounds

/-- Model of `appendOfferRange(offerIndex, startToken, endToken, price, name)`. -/
def appendOfferRange (env : ExtEnv) (s : MarketState)
    (offerIndex startToken endToken price : Nat) (name : String) : MResult :=
  match s.offerCatalog[offerIndex]? with
  | none => Except.error MErr.IndexOutOfBounds
  | some sel => do
    let _ ← validateRoles env sel.contractAddress
    let _ ← validateRangeInfo startToken endToken
    appendOfferRangeInternal s offerIndex startToken endToken price name

/-- Model of `appendOfferRangeBatch(offerIndex, startTokens, endTokens, prices, names)`. -/
def appendOfferRangeBatch (env : ExtEnv) (s : MarketState) (offerIndex : Nat)
    (startTokens endTokens prices : List Nat) (names : List String) : MResult := do
  let _ ←
    if startTokens.length = endTokens.length ∧
       prices.length = startTokens.length ∧
       names.length = prices.length then (Except.ok () : Except MErr Unit)
    else Except.error MErr.RangeLengthMismatch
  match s.offerCatalog[offerIndex]? with
  | none => Except.error MErr.IndexOutOfBounds
  | some sel => do
    let _ ← validateRoles env sel.contractAddress
    appendRangesLoop offerIndex (zip4 startTokens endTokens prices names) s

/-- The creator-share expression of line 316:
`rangePrice[rangeIndex] * (100000 - (treasuryFee + nodeFee)) / 100000`,
with the `uint16` addition and the subsequent (`uint24`) subtraction and
(`uint256`) multiplication checked as Solidity 0.8 checks them. -/
def creatorShare (tFee nFee price : Nat) : Except MErr Nat := do
  let fSum ← cadd16 tFee nFee
  let rest ← csub 100000 fSum
  let m ← cmul price rest
  Except.ok (m / 100000)

/-- Model of `buyToken(catalogIndex, rangeIndex, internalTokenIndex)` with
`msg.sender = msgSender` and `msg.value = msgValue`. -/
def buyToken (env : ExtEnv) (s : MarketState)
    (msgSender msgValue catalogIndex rangeIndex internalTokenIndex : Nat) : MResult :=
  match s.offerCatalog[catalogIndex]? with
  | none => Except.error MErr.IndexOutOfBounds
  | some sel => do
    let _ ←
      if sel.contractAddress ≠ 0 then (Except.ok () : Except MErr Unit)
      else Except.error MErr.InvalidOffer
    let _ ←
      if rangeIndex < sel.tokensAllowed.length then (Except.ok () : Except MErr Unit)
      else Except.error MErr.InvalidRange
    match sel.tokensAllowed[rangeIndex]? with
    | none => Except.error MErr.IndexOutOfBounds
    | some allowed => do
      let _ ←
        if 0 < allowed then (Except.ok () : Except MErr Unit)
        else Except.error MErr.RangeSoldOut
      match sel.tokenRangeStart[rangeIndex]?, sel.tokenRangeEnd[rangeIndex]? with
      | some startTok, some endTok => do
        let _ ←
          if startTok ≤ internalTokenIndex ∧ internalTokenIndex ≤ endTok then
            (Except.ok () : Except MErr Unit)
          else Except.error MErr.TokenOutsideRange
        match sel.rangePrice[rangeIndex]? with
        | none => Except.error MErr.IndexOutOfBounds
        | some price => do
          let _ ←
            if price ≤ msgValue then (Except.ok () : Except MErr Unit)
            else Except.error MErr.InsufficientFunds
          let creActs ←
            if env.supportsRoyaltyInterface sel.contractAddress then
              match sel.rangeName[rangeIndex]? with
              | none => (Except.error MErr.IndexOutOfBounds : Except MErr (List Action))
              | some nm => do
                let creatorAddress := env.royaltyReceiver sel.contractAddress price nm
                let camt ← creatorShare s.treasuryFee s.nodeFee price
                Except.ok [Action.transferCreator creatorAddress camt]
            else Except.ok ([] : List Action)
          let refund ← csub msgValue price
          let tProd ← cmul price s.treasuryFee
          let nProd ← cmul price s.nodeFee
          let newAllowed := allowed - 1
          let newOpenSales ←
            if newAllowed = 0 then csub s.openSales 1 else Except.ok s.openSales
          let soldActs : List Action :=
            if newAllowed = 0 then
              [Action.soldOutEvent sel.contractAddress catalogIndex rangeIndex]
            else []
          let sel' : Offer := { sel with tokensAllowed := sel.tokensAllowed.set rangeIndex newAllowed }
          Except.ok ({ s with offerCatalog := s.offerCatalog.set catalogIndex sel',
                              openSales := newOpenSales },
            creActs ++
              [Action.transferRefund msgSender refund,
               Action.transferTreasury s.treasury (tProd / 100000),
               Action.transferNode sel.nodeAddress (nProd / 100000),
               Action.decrementSupply catalogIndex rangeIndex] ++
              soldActs ++
              [Action.mintCall msgSender sel.productIndex internalTokenIndex,
               Action.tokenMintedEvent msgSender sel.contractAddress catalogIndex rangeIndex internalTokenIndex])
      | _, _ => Except.error MErr.IndexOutOfBounds

/-! ### Derived observations used in theorem statements -/

/-- Total amount of native currency transferred out in a trace. -/
def transferTotal : List Action → Nat
  | [] => 0
  | Action.transferCreator _ amt :: rest => amt + transferTotal rest
  | Action.transferRefund _ amt :: rest => amt + transferTotal rest
  | Action.transferTreasury _ amt :: rest => amt + transferTotal rest
  | Action.transferNode _ amt :: rest => amt + transferTotal rest
  | _ :: rest => transferTotal rest

/-- The creator (royalty) payments of a trace, in order. -/
def creatorTransfers : List Action → List (Nat × Nat)
  | [] => []
  | Action.transferCreator r amt :: rest => (r, amt) :: creatorTransfers rest
  | _ :: rest => creatorTransfers rest

/-- Number of entries of a list that are strictly positive. -/
def countPos (l : List Nat) : Nat := l.countP (fun a => decide (0 < a))

/-- Number of ranges of an offer with remaining supply. -/
def offerOpenRanges (o : Offer) : Nat := countPos o.tokensAllowed

/-- Number of ranges in the whole catalog with remaining supply. -/
def rangesOpen (s : MarketState) : Nat := (s.offerCatalog.map offerOpenRanges).sum

/-- The `openSales` bookkeeping invariant of the spec. -/
def openSalesInvariant (s : MarketState) : Prop := s.openSales = rangesOpen s

/-! ### Helper lemmas -/

theorem ebind_ok {α β : Type} {x : Except MErr α} {f : α → Except MErr β} {b : β} :
    x >>= f = Except.ok b ↔ ∃ a, x = Except.ok a ∧ f a = Except.ok b := by
  cases x <;> simp [Bind.bind, Except.bind]

theorem ebind_ok_left {α β : Type} (a : α) (f : α → Except MErr β) :
    (Except.ok a : Except MErr α) >>= f = f a := rfl

theorem ebind_err_left {α β : Type} (e : MErr) (f : α → Except MErr β) :
    (Except.error e : Except MErr α) >>= f = Except.error e := rfl

theorem eguard_ok {c : Prop} [Decidable c] {e : MErr} {u : Unit} :
    (if c then (Except.ok () : Except MErr Unit) else Except.error e) = Except.ok u ↔ c := by
  split <;> simp_all

theorem eguard_error {c : Prop} [Decidable c] {e e' : MErr} :
    (if c then (Except.ok () : Except MErr Unit) else Except.error e) = Except.error e' ↔
      ¬ c ∧ e = e' := by
  split <;> simp_all

theorem csub_eq_ok {a b r : Nat} : csub a b = Except.ok r ↔ b ≤ a ∧ r = a - b := by
  unfold csub; split <;> simp_all [eq_comm]

theorem cmul_eq_ok {a b r : Nat} : cmul a b = Except.ok r ↔ a * b ≤ 2 ^ 256 - 1 ∧ r = a * b := by
  unfold cmul; split <;> simp_all [eq_comm]

theorem cadd16_eq_ok {a b r : Nat} : cadd16 a b = Except.ok r ↔ a + b ≤ 65535 ∧ r = a + b := by
  unfold cadd16; split <;> simp_all [eq_comm]

theorem validateRoles_ok {env : ExtEnv} {t : Nat} {u : Unit} :
    validateRoles env t = Except.ok u ↔
      env.hasMinterRole t = true ∧ env.hasCreatorRole t = true := by
  unfold validateRoles
  cases h1 : env.hasMinterRole t <;> cases h2 : env.hasCreatorRole t <;> simp

theorem validateRangeInfo_ok {a b : Nat} {u : Unit} :
    validateRangeInfo a b = Except.ok u ↔ a < b := by
  unfold validateRangeInfo; split <;> simp_all

theorem transferTotal_append (l1 l2 : List Action) :
    transferTotal (l1 ++ l2) = transferTotal l1 + transferTotal l2 := by
  induction l1 with
  | nil => simp [transferTotal]
  | cons a rest ih => cases a <;> simp [transferTotal, ih] <;> omega

theorem creatorTransfers_append (l1 l2 : List Action) :
    creatorTransfers (l1 ++ l2) = creatorTransfers l1 ++ creatorTransfers l2 := by
  induction l1 with
  | nil => simp [creatorTransfers]
  | cons a rest ih => cases a <;> simp [creatorTransfers, ih]

theorem sum_set_add {l : List Nat} {i a : Nat} (h : l[i]? = some a) (v : Nat) :
    (l.set i v).sum + a = l.sum + v := by
  induction l generalizing i with
  | nil => simp at h
  | cons x xs ih =>
    cases i with
    | zero =>
      simp only [List.getElem?_cons_zero, Option.some.injEq] at h
      subst h; simp [List.set]; omega
    | succ n =>
      simp only [List.getElem?_cons_succ] at h
      have := ih h
      simp [List.set]; omega

theorem countP_set_add {p : Nat → Bool} {l : List Nat} {i a : Nat} (h : l[i]? = some a) (v : Nat) :
    (l.set i v).countP p + (if p a then 1 else 0) = l.countP p + (if p v then 1 else 0) := by
  induction l generalizing i with
  | nil => simp at h
  | cons x xs ih =>
    cases i with
    | zero =>
      simp only [List.getElem?_cons_zero, Option.some.injEq] at h
      subst h; simp [List.set, List.countP_cons]; omega
    | succ n =>
      simp only [List.getElem?_cons_succ] at h
      have := ih h
      simp [List.set, List.countP_cons]
      omega

theorem map_set_comm {α β : Type} (f : α → β) (l : List α) (i : Nat) (v : α) :
    (l.set i v).map f = (l.map f).set i (f v) := by
  induction l generalizing i with
  | nil => simp
  | cons x xs ih => cases i <;> simp [List.set, ih]

theorem getElem?_map_comm {α β : Type} (f : α → β) (l : List α) (i : Nat) :
    (l.map f)[i]? = (l[i]?).map f := by
  induction l generalizing i with
  | nil => simp
  | cons x xs ih => cases i <;> simp [ih]

/-- Replacing offer `i` in the catalog changes the open-range count by the
difference of the offer-level counts. -/
theorem rangesOpen_set {cat : List Offer} {i : Nat} {o : Offer}
    (h : cat[i]? = some o) (o' : Offer) :
    ((cat.set i o').map offerOpenRanges).sum + offerOpenRanges o =
      (cat.map offerOpenRanges).sum + offerOpenRanges o' := by
  have hm : (cat.map offerOpenRanges)[i]? = some (offerOpenRanges o) := by
    rw [getElem?_map_comm, h]; rfl
  rw [map_set_comm]
  exact sum_set_add hm (offerOpenRanges o')

theorem countPos_append_singleton (l : List Nat) (v : Nat) :
    countPos (l ++ [v]) = countPos l + (if 0 < v then 1 else 0) := by
  unfold countPos
  rw [List.countP_append]
  by_cases h : 0 < v <;> simp [List.countP_cons, h]

theorem countPos_set {l : List Nat} {i a : Nat} (h : l[i]? = some a) (v : Nat) :
    countPos (l.set i v) + (if 0 < a then 1 else 0) =
      countPos l + (if 0 < v then 1 else 0) := by
  unfold countPos
  have := countP_set_add (p := fun a => decide (0 < a)) h v
  simpa using this

theorem countPos_pos_of_mem {l : List Nat} {i a : Nat} (h : l[i]? = some a) (ha : 0 < a) :
    0 < countPos l := by
  induction l generalizing i with
  | nil => simp at h
  | cons x xs ih =>
    cases i with
    | zero =>
      simp only [List.getElem?_cons_zero, Option.some.injEq] at h
      subst h
      unfold countPos
      rw [List.countP_cons]
      have hd := decide_eq_true ha
      simp [hd]
    | succ n =>
      simp only [List.getElem?_cons_succ] at h
      have hx := ih h
      unfold countPos at hx ⊢
      rw [List.countP_cons]
      split <;> omega

theorem le_sum_of_lookup {l : List Nat} {i x : Nat} (h : l[i]? = some x) : x ≤ l.sum := by
  induction l generalizing i with
  | nil => simp at h
  | cons y ys ih =>
    cases i with
    | zero =>
      simp only [List.getElem?_cons_zero, Option.some.injEq] at h
      subst h; simp
    | succ n =>
      simp only [List.getElem?_cons_succ] at h
      have := ih h
      simp; omega

/-- Full characterization of a successful `buyToken`: the validations it
implies, the exact new state, and the exact effect trace. -/
theorem buyToken_ok_elim {env : ExtEnv} {s : MarketState}
    {msgSender msgValue ci ri ti : Nat} {s' : MarketState} {tr : List Action}
    (h : buyToken env s msgSender msgValue ci ri ti = Except.ok (s', tr)) :
    ∃ sel allowed startTok endTok price creActs newOpenSales,
      s.offerCatalog[ci]? = some sel ∧
      sel.contractAddress ≠ 0 ∧
      ri < sel.tokensAllowed.length ∧
      sel.tokensAllowed[ri]? = some allowed ∧
      0 < allowed ∧
      sel.tokenRangeStart[ri]? = some startTok ∧
      sel.tokenRangeEnd[ri]? = some endTok ∧
      startTok ≤ ti ∧ ti ≤ endTok ∧
      sel.rangePrice[ri]? = some price ∧
      price ≤ msgValue ∧
      ((∃ nm camt,
          env.supportsRoyaltyInterface sel.contractAddress = true ∧
          sel.rangeName[ri]? = some nm ∧
          creatorShare s.treasuryFee s.nodeFee price = Except.ok camt ∧
          creActs = [Action.transferCreator (env.royaltyReceiver sel.contractAddress price nm) camt]) ∨
        (env.supportsRoyaltyInterface sel.contractAddress = false ∧ creActs = [])) ∧
      ((allowed - 1 = 0 ∧ 1 ≤ s.openSales ∧ newOpenSales = s.openSales - 1) ∨
        (allowed - 1 ≠ 0 ∧ newOpenSales = s.openSales)) ∧
      s' = { s with
        offerCatalog := s.offerCatalog.set ci
          { sel with tokensAllowed := sel.tokensAllowed.set ri (allowed - 1) },
        openSales := newOpenSales } ∧
      tr = creActs ++
        [Action.transferRefund msgSender (msgValue - price),
         Action.transferTreasury s.treasury (price * s.treasuryFee / 100000),
         Action.transferNode sel.nodeAddress (price * s.nodeFee / 100000),
         Action.decrementSupply ci ri] ++
        (if allowed - 1 = 0 then [Action.soldOutEvent sel.contractAddress ci ri] else []) ++
        [Action.mintCall msgSender sel.productIndex ti,
         Action.tokenMintedEvent msgSender sel.contractAddress ci ri ti] := by
  unfold buyToken at h
  cases hsel : s.offerCatalog[ci]? with
  | none => rw [hsel] at h; cases h
  | some sel =>
    rw [hsel] at h
    by_cases hne : sel.contractAddress ≠ 0
    case neg => simp only [if_neg hne, ebind_err_left] at h; cases h
    simp only [if_pos hne, ebind_ok_left] at h
    by_cases hri : ri < sel.tokensAllowed.length
    case neg => simp only [if_neg hri, ebind_err_left] at h; cases h
    simp only [if_pos hri, ebind_ok_left] at h
    cases hA : sel.tokensAllowed[ri]? with
    | none => rw [hA] at h; simp only [ebind_err_left] at h; cases h
    | some allowed =>
      rw [hA] at h
      by_cases hpos : 0 < allowed
      case neg => simp only [if_neg hpos, ebind_err_left] at h; cases h
      simp only [if_pos hpos, ebind_ok_left] at h
      cases hST : sel.tokenRangeStart[ri]? with
      | none =>
        rw [hST] at h
        cases hEN : sel.tokenRangeEnd[ri]? <;> rw [hEN] at h <;>
          simp only [ebind_err_left] at h <;> cases h
      | some startTok =>
        cases hEN : sel.tokenRangeEnd[ri]? with
        | none => rw [hST, hEN] at h; simp only [ebind_err_left] at h; cases h
        | some endTok =>
          rw [hST, hEN] at h
          by_cases hin : startTok ≤ ti ∧ ti ≤ endTok
          case neg => simp only [if_neg hin, ebind_err_left] at h; cases h
          simp only [if_pos hin, ebind_ok_left] at h
          cases hPR : sel.rangePrice[ri]? with
          | none => rw [hPR] at h; simp only [ebind_err_left] at h; cases h
          | some price =>
            rw [hPR] at h
            by_cases hval : price ≤ msgValue
            case neg => simp only [if_neg hval, ebind_err_left] at h; cases h
            simp only [if_pos hval, ebind_ok_left] at h
            have hrest :
                ∀ (creActs : List Action),
                  ((∃ nm camt,
                      env.supportsRoyaltyInterface sel.contractAddress = true ∧
                      sel.rangeName[ri]? = some nm ∧
                      creatorShare s.treasuryFee s.nodeFee price = Except.ok camt ∧
                      creActs = [Action.transferCreator
                        (env.royaltyReceiver sel.contractAddress price nm) camt]) ∨
                    (env.supportsRoyaltyInterface sel.contractAddress = false ∧ creActs = [])) →
                  (do
                    let refund ← csub msgValue price
                    let tProd ← cmul price s.treasuryFee
                    let nProd ← cmul price s.nodeFee
                    let newAllowed := allowed - 1
                    let newOpenSales ←
                      if newAllowed = 0 then csub s.openSales 1 else Except.ok s.openSales
                    let soldActs : List Action :=
                      if newAllowed = 0 then
                        [Action.soldOutEvent sel.contractAddress ci ri]
                      else []
                    let sel' : Offer :=
                      { sel with tokensAllowed := sel.tokensAllowed.set ri newAllowed }
                    Except.ok ({ s with
                        offerCatalog := s.offerCatalog.set ci sel',
                        openSales := newOpenSales },
                      creActs ++
                        [Action.transferRefund msgSender refund,
                         Action.transferTreasury s.treasury (tProd / 100000),
                         Action.transferNode sel.nodeAddress (nProd / 100000),
                         Action.decrementSupply ci ri] ++
                        soldActs ++
                        [Action.mintCall msgSender sel.productIndex ti,
                         Action.tokenMintedEvent msgSender sel.contractAddress ci ri ti])) =
                    Except.ok (s', tr) →
                  ∃ selE allowedE startTokE endTokE priceE creActsE newOpenSalesE,
                    some sel = some selE ∧
                    selE.contractAddress ≠ 0 ∧
                    ri < selE.tokensAllowed.length ∧
                    selE.tokensAllowed[ri]? = some allowedE ∧
                    0 < allowedE ∧
                    selE.tokenRangeStart[ri]? = some startTokE ∧
                    selE.tokenRangeEnd[ri]? = some endTokE ∧
                    startTokE ≤ ti ∧ ti ≤ endTokE ∧
                    selE.rangePrice[ri]? = some priceE ∧
                    priceE ≤ msgValue ∧
                    ((∃ nm camt,
                        env.supportsRoyaltyInterface selE.contractAddress = true ∧
                        selE.rangeName[ri]? = some nm ∧
                        creatorShare s.treasuryFee s.nodeFee priceE = Except.ok camt ∧
                        creActsE = [Action.transferCreator
                          (env.royaltyReceiver selE.contractAddress priceE nm) camt]) ∨
                      (env.supportsRoyaltyInterface selE.contractAddress = false ∧ creActsE = [])) ∧
                    ((allowedE - 1 = 0 ∧ 1 ≤ s.openSales ∧ newOpenSalesE = s.openSales - 1) ∨
                      (allowedE - 1 ≠ 0 ∧ newOpenSalesE = s.openSales)) ∧
                    s' = { s with
                      offerCatalog := s.offerCatalog.set ci
                        { selE with tokensAllowed := selE.tokensAllowed.set ri (allowedE - 1) },
                      openSales := newOpenSalesE } ∧
                    tr = creActsE ++
                      [Action.transferRefund msgSender (msgValue - priceE),
                       Action.transferTreasury s.treasury (priceE * s.treasuryFee / 100000),
                       Action.transferNode selE.nodeAddress (priceE * s.nodeFee / 100000),
                       Action.decrementSupply ci ri] ++
                      (if allowedE - 1 = 0 then
                        [Action.soldOutEvent selE.contractAddress ci ri] else []) ++
                      [Action.mintCall msgSender selE.productIndex ti,
                       Action.tokenMintedEvent msgSender selE.contractAddress ci ri ti] := by
              intro creActs hcre hx
              simp only [ebind_ok] at hx
              obtain ⟨refund, hrefund, hx⟩ := hx
              obtain ⟨tProd, htp, hx⟩ := hx
              obtain ⟨nProd, hnp, hx⟩ := hx
              rw [csub_eq_ok] at hrefund
              rw [cmul_eq_ok] at htp
              rw [cmul_eq_ok] at hnp
              obtain ⟨hrle, hrfeq⟩ := hrefund
              obtain ⟨htple, htpeq⟩ := htp
              obtain ⟨hnple, hnpeq⟩ := hnp
              subst hrfeq; subst htpeq; subst hnpeq
              by_cases hz : allowed - 1 = 0
              · simp only [if_pos hz, ebind_ok] at hx
                obtain ⟨newOpenSales, hos, hx⟩ := hx
                rw [csub_eq_ok] at hos
                obtain ⟨hos1, hos2⟩ := hos
                simp only [Except.ok.injEq, Prod.mk.injEq] at hx
                obtain ⟨hs', htr⟩ := hx
                exact ⟨sel, allowed, startTok, endTok, price, creActs, newOpenSales,
                  rfl, hne, hri, hA, hpos, hST, hEN, hin.1, hin.2, hPR, hval, hcre,
                  Or.inl ⟨hz, hos1, hos2⟩, hs'.symm, by rw [← htr]; simp [hz]⟩
              · simp only [if_neg hz, ebind_ok_left] at hx
                simp only [Except.ok.injEq, Prod.mk.injEq] at hx
                obtain ⟨hs', htr⟩ := hx
                exact ⟨sel, allowed, startTok, endTok, price, creActs, s.openSales,
                  rfl, hne, hri, hA, hpos, hST, hEN, hin.1, hin.2, hPR, hval, hcre,
                  Or.inr ⟨hz, rfl⟩, hs'.symm, by rw [← htr]; simp [hz]⟩
            by_cases hS : env.supportsRoyaltyInterface sel.contractAddress = true
            · rw [if_pos hS] at h
              cases hNM : sel.rangeName[ri]? with
              | none => rw [hNM] at h; simp only [ebind_err_left] at h; cases h
              | some nm =>
                rw [hNM] at h
                rw [ebind_ok] at h
                obtain ⟨camt, hcamt, h⟩ := h
                exact hrest
                  [Action.transferCreator (env.royaltyReceiver sel.contractAddress price nm) camt]
                  (Or.inl ⟨nm, camt, hS, hNM, hcamt, rfl⟩) h
            · rw [if_neg hS] at h
              exact hrest [] (Or.inr ⟨Bool.not_eq_true _ ▸ (by simpa using hS), rfl⟩) h

theorem getElem?_set_self {α : Type} {l : List α} {i : Nat} (v : α) (h : i < l.length) :
    (l.set i v)[i]? = some v := by
  induction l generalizing i with
  | nil => simp at h
  | cons x xs ih =>
    cases i with
    | zero => simp [List.set]
    | succ n => simp [List.set]; exact ih (by simpa using h)

theorem getElem?_set_ne {α : Type} {l : List α} {i j : Nat} (v : α) (h : j ≠ i) :
    (l.set i v)[j]? = l[j]? := by
  induction l generalizing i j with
  | nil => simp
  | cons x xs ih =>
    cases i with
    | zero =>
      cases j with
      | zero => exact absurd rfl h
      | succ m => simp [List.set]
    | succ n =>
      cases j with
      | zero => simp [List.set]
      | succ m => simp [List.set]; exact ih (fun hc => h (by rw [hc]))

theorem set_of_getElem? {α : Type} {l : List α} {i : Nat} {a : α} (h : l[i]? = some a) :
    l.set i a = l := by
  induction l generalizing i with
  | nil => simp
  | cons x xs ih =>
    cases i with
    | zero =>
      simp only [List.getElem?_cons_zero, Option.some.injEq] at h
      rw [h]; simp [List.set]
    | succ n =>
      simp only [List.getElem?_cons_succ] at h
      simp [List.set, ih h]

theorem set_set_same {α : Type} (l : List α) (i : Nat) (a b : α) :
    (l.set i a).set i b = l.set i b := by
  induction l generalizing i with
  | nil => simp
  | cons x xs ih => cases i <;> simp [List.set, ih]

theorem lt_length_of_getElem? {α : Type} {l : List α} {i : Nat} {a : α}
    (h : l[i]? = some a) : i < l.length := by
  induction l generalizing i with
  | nil => simp at h
  | cons x xs ih =>
    cases i with
    | zero => simp
    | succ n =>
      simp only [List.getElem?_cons_succ] at h
      have := ih h
      simpa using Nat.succ_lt_succ this

theorem countPos_append_pos {l lst : List Nat} (hp : ∀ x ∈ lst, 0 < x) :
    countPos (l ++ lst) = countPos l + lst.length := by
  induction lst generalizing l with
  | nil => simp [countPos]
  | cons x xs ih =>
    have hx : 0 < x := hp x (by simp)
    have hxs : ∀ y ∈ xs, 0 < y := fun y hy => hp y (by simp [hy])
    have h1 : l ++ x :: xs = (l ++ [x]) ++ xs := by simp
    rw [h1, ih hxs, countPos_append_singleton, if_pos hx]
    simp only [List.length_cons]
    omega

/-- Characterization of a successful `_appendOfferRange`. -/
theorem appendOfferRangeInternal_ok {s : MarketState} {oi st en pr : Nat} {nm : String}
    {s' : MarketState} {acts : List Action}
    (h : appendOfferRangeInternal s oi st en pr nm = Except.ok (s', acts)) :
    ∃ sel, s.offerCatalog[oi]? = some sel ∧ st ≤ en ∧
      s' = { s with
        offerCatalog := s.offerCatalog.set oi { sel with
          tokenRangeStart := sel.tokenRangeStart ++ [st],
          tokenRangeEnd := sel.tokenRangeEnd ++ [en],
          rangePrice := sel.rangePrice ++ [pr],
          tokensAllowed := sel.tokensAllowed ++ [en - st + 1],
          rangeName := sel.rangeName ++ [nm] },
        openSales := s.openSales + 1 } ∧
      acts = [Action.appendedRangeEvent sel.contractAddress sel.productIndex oi
        (sel.rangeName.length + 1 - 1) st en pr nm] := by
  unfold appendOfferRangeInternal at h
  cases hsel : s.offerCatalog[oi]? with
  | none => rw [hsel] at h; cases h
  | some sel =>
    rw [hsel] at h
    rw [ebind_ok] at h
    obtain ⟨span, hspan, h⟩ := h
    rw [csub_eq_ok] at hspan
    obtain ⟨hle, hspeq⟩ := hspan
    subst hspeq
    simp only [Except.ok.injEq, Prod.mk.injEq] at h
    obtain ⟨hs', hacts⟩ := h
    refine ⟨sel, rfl, hle, hs'.symm, ?_⟩
    rw [← hacts]
    simp [List.length_append]

/-- Characterization of a successful range-creation loop. -/
theorem appendRangesLoop_ok {oi : Nat} {tuples : List (Nat × Nat × Nat × String)}
    {s s' : MarketState} {acts : List Action}
    (h : appendRangesLoop oi tuples s = Except.ok (s', acts)) :
    (∀ t ∈ tuples, t.1 < t.2.1) ∧
    s'.contractToOfferMap = s.contractToOfferMap ∧
    s'.treasury = s.treasury ∧
    s'.treasuryFee = s.treasuryFee ∧
    s'.nodeFee = s.nodeFee ∧
    s'.openSales = s.openSales + tuples.length ∧
    (s.offerCatalog[oi]? = none → tuples = [] ∧ s'.offerCatalog = s.offerCatalog) ∧
    ∀ sel, s.offerCatalog[oi]? = some sel →
      ∃ sel', s'.offerCatalog = s.offerCatalog.set oi sel' ∧
        sel'.contractAddress = sel.contractAddress ∧
        sel'.nodeAddress = sel.nodeAddress ∧
        sel'.productIndex = sel.productIndex ∧
        sel'.tokenRangeStart = sel.tokenRangeStart ++ tuples.map (fun t => t.1) ∧
        sel'.tokenRangeEnd = sel.tokenRangeEnd ++ tuples.map (fun t => t.2.1) ∧
        sel'.tokensAllowed = sel.tokensAllowed ++ tuples.map (fun t => t.2.1 - t.1 + 1) ∧
        sel'.rangePrice = sel.rangePrice ++ tuples.map (fun t => t.2.2.1) ∧
        sel'.rangeName = sel.rangeName ++ tuples.map (fun t => t.2.2.2) := by
  induction tuples generalizing s s' acts with
  | nil =>
    unfold appendRangesLoop at h
    simp only [Except.ok.injEq, Prod.mk.injEq] at h
    obtain ⟨hs, hacts⟩ := h
    subst hs
    refine ⟨by simp, rfl, rfl, rfl, rfl, by simp, fun _ => ⟨rfl, rfl⟩, ?_⟩
    intro sel hsel
    exact ⟨sel, (set_of_getElem? hsel).symm, rfl, rfl, rfl, by simp, by simp, by simp,
      by simp, by simp⟩
  | cons t rest ih =>
    obtain ⟨st, en, pr, nm⟩ := t
    unfold appendRangesLoop at h
    rw [ebind_ok] at h
    obtain ⟨u, hv, h⟩ := h
    rw [validateRangeInfo_ok] at hv
    rw [ebind_ok] at h
    obtain ⟨⟨s1, a1⟩, happ, h⟩ := h
    rw [ebind_ok] at h
    obtain ⟨⟨s2, a2⟩, hloop, h⟩ := h
    simp only [Except.ok.injEq, Prod.mk.injEq] at h
    obtain ⟨hs, hacts⟩ := h
    subst hs
    obtain ⟨sel, hsel, hstle, hs1, ha1⟩ := appendOfferRangeInternal_ok happ
    have ihres := ih hloop
    obtain ⟨ihvalid, ihmap, ihtre, ihtf, ihnf, ihos, ihnone, ihsel⟩ := ihres
    have hlen : oi < s.offerCatalog.length := lt_length_of_getElem? hsel
    have hs1sel : s1.offerCatalog[oi]? = some { sel with
        tokenRangeStart := sel.tokenRangeStart ++ [st],
        tokenRangeEnd := sel.tokenRangeEnd ++ [en],
        rangePrice := sel.rangePrice ++ [pr],
        tokensAllowed := sel.tokensAllowed ++ [en - st + 1],
        rangeName := sel.rangeName ++ [nm] } := by
      rw [hs1]; exact getElem?_set_self _ (by simpa using hlen)
    refine ⟨?_, ?_, ?_, ?_, ?_, ?_, ?_, ?_⟩
    · intro t ht
      simp only [List.mem_cons] at ht
      rcases ht with h1 | h2
      · rw [h1]; exact hv
      · exact ihvalid t h2
    · rw [ihmap, hs1]
    · rw [ihtre, hs1]
    · rw [ihtf, hs1]
    · rw [ihnf, hs1]
    · rw [ihos, hs1]; simp [Nat.add_assoc, Nat.add_comm 1 rest.length]
    · intro hnone
      rw [hnone] at hsel; cases hsel
    · intro selq hselq
      rw [hsel] at hselq
      cases hselq
      obtain ⟨sel', hcat2, hca, hna, hpi, hts, hte, hta, hrp, hrn⟩ := ihsel _ hs1sel
      refine ⟨sel', ?_, by simp [hca], by simp [hna], by simp [hpi],
        by simp [hts, List.append_assoc], by simp [hte, List.append_assoc],
        by simp [hta, List.append_assoc], by simp [hrp, List.append_assoc],
        by simp [hrn, List.append_assoc]⟩
      rw [hcat2, hs1]
      simp [set_set_same]

/-- Characterization of a successful `addOffer`. -/
theorem addOffer_ok_elim {env : ExtEnv} {s : MarketState}
    {tokenAddress productIndex nodeAddress : Nat}
    {rs re rp : List Nat} {rn : List String} {s' : MarketState} {acts : List Action}
    (h : addOffer env s tokenAddress productIndex rs re rp rn nodeAddress =
      Except.ok (s', acts)) :
    ∃ s2 loopActs,
      env.hasMinterRole tokenAddress = true ∧
      env.hasCreatorRole tokenAddress = true ∧
      (s.offerCatalog.length ≠ 0 →
        ∃ o, s.offerCatalog[lookupDefault s.contractToOfferMap tokenAddress]? = some o ∧
          o.contractAddress = 0) ∧
      rs.length = re.length ∧ rp.length = rs.length ∧ rn.length = rp.length ∧
      0 < env.mintableTokensLeft tokenAddress productIndex ∧
      appendRangesLoop
        ((s.offerCatalog ++ [newOfferRecord tokenAddress nodeAddress productIndex]).length - 1)
        (zip4 rs re rp rn)
        { s with
          offerCatalog :=
            s.offerCatalog ++ [newOfferRecord tokenAddress nodeAddress productIndex] } =
        Except.ok (s2, loopActs) ∧
      s' = { s2 with
        contractToOfferMap :=
          insertMap s2.contractToOfferMap tokenAddress (s2.offerCatalog.length - 1) } ∧
      acts = loopActs ++ [Action.addedOfferEvent tokenAddress productIndex rn.length
        (s2.offerCatalog.length - 1)] := by
  unfold addOffer at h
  rw [ebind_ok] at h
  obtain ⟨u0, hroles, h⟩ := h
  rw [validateRoles_ok] at hroles
  by_cases hlen : s.offerCatalog.length ≠ 0
  · rw [if_pos hlen] at h
    cases ho : s.offerCatalog[lookupDefault s.contractToOfferMap tokenAddress]? with
    | none => rw [ho] at h; simp only [ebind_err_left] at h; cases h
    | some o =>
      rw [ho] at h
      simp only [] at h
      by_cases hoc : o.contractAddress ≠ 0
      · rw [if_pos hoc] at h; simp only [ebind_err_left] at h; cases h
      · rw [if_neg hoc] at h
        simp only [ebind_ok_left] at h
        by_cases hlens : rs.length = re.length ∧ rp.length = rs.length ∧ rn.length = rp.length
        case neg => simp only [if_neg hlens, ebind_err_left] at h; cases h
        simp only [if_pos hlens, ebind_ok_left] at h
        by_cases hmint : 0 < env.mintableTokensLeft tokenAddress productIndex
        case neg => simp only [if_neg hmint, ebind_err_left] at h; cases h
        simp only [if_pos hmint, ebind_ok_left] at h
        rw [ebind_ok] at h
        obtain ⟨⟨s2, acts2⟩, hloop, h⟩ := h
        simp only [Except.ok.injEq, Prod.mk.injEq] at h
        obtain ⟨hs3, hacts⟩ := h
        exact ⟨s2, acts2, hroles.1, hroles.2,
          fun _ => ⟨o, rfl, not_not.mp hoc⟩,
          hlens.1, hlens.2.1, hlens.2.2, hmint, hloop, hs3.symm, hacts.symm⟩
  · rw [if_neg hlen] at h
    simp only [ebind_ok_left] at h
    by_cases hlens : rs.length = re.length ∧ rp.length = rs.length ∧ rn.length = rp.length
    case neg => simp only [if_neg hlens, ebind_err_left] at h; cases h
    simp only [if_pos hlens, ebind_ok_left] at h
    by_cases hmint : 0 < env.mintableTokensLeft tokenAddress productIndex
    case neg => simp only [if_neg hmint, ebind_err_left] at h; cases h
    simp only [if_pos hmint, ebind_ok_left] at h
    rw [ebind_ok] at h
    obtain ⟨⟨s2, acts2⟩, hloop, h⟩ := h
    simp only [Except.ok.injEq, Prod.mk.injEq] at h
    obtain ⟨hs3, hacts⟩ := h
    exact ⟨s2, acts2, hroles.1, hroles.2,
      fun hc => absurd hc hlen,
      hlens.1, hlens.2.1, hlens.2.2, hmint, hloop, hs3.symm, hacts.symm⟩

/-- Characterization of a successful `updateOfferRange`. -/
theorem updateOfferRange_ok_elim {env : ExtEnv} {s : MarketState}
    {oi ri st en pr : Nat} {nm : String} {s' : MarketState} {acts : List Action}
    (h : updateOfferRange env s oi ri st en pr nm = Except.ok (s', acts)) :
    ∃ sel oldEnd oldStart oldAllowed priceOld nameOld,
      s.offerCatalog[oi]? = some sel ∧
      sel.tokenRangeEnd[ri]? = some oldEnd ∧
      sel.tokenRangeStart[ri]? = some oldStart ∧
      sel.tokensAllowed[ri]? = some oldAllowed ∧
      sel.rangePrice[ri]? = some priceOld ∧
      sel.rangeName[ri]? = some nameOld ∧
      en ≤ oldEnd ∧ oldStart ≤ st ∧ st < en ∧
      env.hasMinterRole sel.contractAddress = true ∧
      env.hasCreatorRole sel.contractAddress = true ∧
      oldStart ≤ oldEnd ∧ st ≤ en ∧
      en - st ≤ oldEnd - oldStart ∧
      (oldEnd - oldStart) - (en - st) ≤ oldAllowed ∧
      s' = { s with offerCatalog := s.offerCatalog.set oi { sel with
        tokensAllowed := sel.tokensAllowed.set ri
          (oldAllowed - ((oldEnd - oldStart) - (en - st))),
        tokenRangeStart := sel.tokenRangeStart.set ri st,
        tokenRangeEnd := sel.tokenRangeEnd.set ri en,
        rangePrice := sel.rangePrice.set ri pr,
        rangeName := sel.rangeName.set ri nm } } ∧
      acts = [Action.updatedOfferEvent sel.contractAddress oi ri
        (oldAllowed - ((oldEnd - oldStart) - (en - st))) pr nm] := by
  unfold updateOfferRange at h
  cases hsel : s.offerCatalog[oi]? with
  | none => rw [hsel] at h; cases h
  | some sel =>
    rw [hsel] at h
    simp only [] at h
    cases hoE : sel.tokenRangeEnd[ri]? with
    | none =>
      rw [hoE] at h
      cases hoS : sel.tokenRangeStart[ri]? <;> rw [hoS] at h <;> simp at h
    | some oldEnd =>
      cases hoS : sel.tokenRangeStart[ri]? with
      | none => rw [hoE, hoS] at h; simp at h
      | some oldStart =>
        rw [hoE, hoS] at h
        simp only [] at h
        by_cases hb : en ≤ oldEnd ∧ oldStart ≤ st
        case neg => simp only [if_neg hb, ebind_err_left] at h; cases h
        simp only [if_pos hb, ebind_ok_left] at h
        rw [ebind_ok] at h
        obtain ⟨u1, hroles, h⟩ := h
        rw [validateRoles_ok] at hroles
        rw [ebind_ok] at h
        obtain ⟨u2, hvr, h⟩ := h
        rw [validateRangeInfo_ok] at hvr
        cases hoA : sel.tokensAllowed[ri]? with
        | none => rw [hoA] at h; simp at h
        | some oldAllowed =>
          rw [hoA] at h
          simp only [] at h
          rw [ebind_ok] at h
          obtain ⟨oldSpan, h1, h⟩ := h
          rw [csub_eq_ok] at h1
          obtain ⟨h1le, h1eq⟩ := h1
          subst h1eq
          rw [ebind_ok] at h
          obtain ⟨newSpan, h2, h⟩ := h
          rw [csub_eq_ok] at h2
          obtain ⟨h2le, h2eq⟩ := h2
          subst h2eq
          rw [ebind_ok] at h
          obtain ⟨delta, h3, h⟩ := h
          rw [csub_eq_ok] at h3
          obtain ⟨h3le, h3eq⟩ := h3
          subst h3eq
          rw [ebind_ok] at h
          obtain ⟨newAllowed, h4, h⟩ := h
          rw [csub_eq_ok] at h4
          obtain ⟨h4le, h4eq⟩ := h4
          subst h4eq
          cases hPr : sel.rangePrice[ri]? with
          | none =>
            rw [hPr] at h
            cases hNm : sel.rangeName[ri]? <;> rw [hNm] at h <;> simp at h
          | some priceOld =>
            cases hNm : sel.rangeName[ri]? with
            | none => rw [hPr, hNm] at h; simp at h
            | some nameOld =>
              rw [hPr, hNm] at h
              simp only [Except.ok.injEq, Prod.mk.injEq] at h
              obtain ⟨hs', hacts⟩ := h
              exact ⟨sel, oldEnd, oldStart, oldAllowed, priceOld, nameOld,
                rfl, hoE, hoS, hoA, hPr, hNm, hb.1, hb.2, hvr,
                hroles.1, hroles.2, h1le, h2le, h3le, h4le,
                hs'.symm, hacts.symm⟩

theorem bt_err_invalidOffer {env : ExtEnv} {s : MarketState}
    {msgSender msgValue ci ri ti : Nat} {sel : Offer}
    (hsel : s.offerCatalog[ci]? = some sel) (h0 : sel.contractAddress = 0) :
    buyToken env s msgSender msgValue ci ri ti = Except.error MErr.InvalidOffer := by
  unfold buyToken
  rw [hsel]
  simp [h0, ebind_err_left]

theorem bt_err_invalidRange {env : ExtEnv} {s : MarketState}
    {msgSender msgValue ci ri ti : Nat} {sel : Offer}
    (hsel : s.offerCatalog[ci]? = some sel) (hne : sel.contractAddress ≠ 0)
    (hri : sel.tokensAllowed.length ≤ ri) :
    buyToken env s msgSender msgValue ci ri ti = Except.error MErr.InvalidRange := by
  unfold buyToken
  rw [hsel]
  simp [hne, Nat.not_lt.mpr hri, ebind_err_left, ebind_ok_left]

theorem bt_err_rangeSoldOut {env : ExtEnv} {s : MarketState}
    {msgSender msgValue ci ri ti : Nat} {sel : Offer}
    (hsel : s.offerCatalog[ci]? = some sel) (hne : sel.contractAddress ≠ 0)
    (hri : ri < sel.tokensAllowed.length) (hA : sel.tokensAllowed[ri]? = some 0) :
    buyToken env s msgSender msgValue ci ri ti = Except.error MErr.RangeSoldOut := by
  unfold buyToken
  rw [hsel]
  simp [hne, hri, hA, ebind_err_left, ebind_ok_left]

theorem bt_err_tokenOutsideRange {env : ExtEnv} {s : MarketState}
    {msgSender msgValue ci ri ti : Nat} {sel : Offer} {allowed startTok endTok : Nat}
    (hsel : s.offerCatalog[ci]? = some sel) (hne : sel.contractAddress ≠ 0)
    (hri : ri < sel.tokensAllowed.length) (hA : sel.tokensAllowed[ri]? = some allowed)
    (hpos : 0 < allowed)
    (hST : sel.tokenRangeStart[ri]? = some startTok)
    (hEN : sel.tokenRangeEnd[ri]? = some endTok)
    (hout : ¬ (startTok ≤ ti ∧ ti ≤ endTok)) :
    buyToken env s msgSender msgValue ci ri ti = Except.error MErr.TokenOutsideRange := by
  unfold buyToken
  rw [hsel]
  simp [hne, hri, hA, hpos, hST, hEN, hout, ebind_ok_left, ebind_err_left]

theorem bt_err_insufficientFunds {env : ExtEnv} {s : MarketState}
    {msgSender msgValue ci ri ti : Nat} {sel : Offer} {allowed startTok endTok price : Nat}
    (hsel : s.offerCatalog[ci]? = some sel) (hne : sel.contractAddress ≠ 0)
    (hri : ri < sel.tokensAllowed.length) (hA : sel.tokensAllowed[ri]? = some allowed)
    (hpos : 0 < allowed)
    (hST : sel.tokenRangeStart[ri]? = some startTok)
    (hEN : sel.tokenRangeEnd[ri]? = some endTok)
    (hin : startTok ≤ ti ∧ ti ≤ endTok)
    (hPR : sel.rangePrice[ri]? = some price)
    (hval : msgValue < price) :
    buyToken env s msgSender msgValue ci ri ti = Except.error MErr.InsufficientFunds := by
  unfold buyToken
  rw [hsel]
  simp [hne, hri, hA, hpos, hST, hEN, hin.1, hin.2, hPR, Nat.not_le.mpr hval,
    ebind_ok_left, ebind_err_left]

/-- Success characterization of `creatorShare`. -/
theorem creatorShare_eq_ok {tf nf price r : Nat} :
    creatorShare tf nf price = Except.ok r ↔
      tf + nf ≤ 65535 ∧ price * (100000 - (tf + nf)) ≤ 2 ^ 256 - 1 ∧
      r = price * (100000 - (tf + nf)) / 100000 := by
  unfold creatorShare
  simp only [ebind_ok, cadd16_eq_ok, csub_eq_ok, cmul_eq_ok, Except.ok.injEq]
  constructor
  · rintro ⟨a, ⟨ha1, ha2⟩, b, ⟨hb1, hb2⟩, m, ⟨hm1, hm2⟩, hr⟩
    subst ha2; subst hb2; subst hm2; subst hr
    exact ⟨ha1, hm1, rfl⟩
  · rintro ⟨h1, h3, hr⟩
    exact ⟨tf + nf, ⟨h1, rfl⟩, 100000 - (tf + nf), ⟨by omega, rfl⟩,
      price * (100000 - (tf + nf)), ⟨h3, rfl⟩, hr.symm⟩

/-- The expression `creatorShare` never reverts with an underflow when the fee sum fits in
`uint16` (the second half of the C10 claim). -/
theorem creatorShare_no_underflow {tf nf : Nat} (h1 : tf + nf ≤ 65535) (p : Nat) :
    creatorShare tf nf p ≠ Except.error MErr.ArithUnderflow := by
  unfold creatorShare
  have hc : cadd16 tf nf = Except.ok (tf + nf) := by
    unfold cadd16; rw [if_pos h1]
  rw [hc]
  simp only [ebind_ok_left]
  have hs : csub 100000 (tf + nf) = Except.ok (100000 - (tf + nf)) := by
    unfold csub; rw [if_pos (by omega)]
  rw [hs]
  simp only [ebind_ok_left]
  by_cases h3 : p * (100000 - (tf + nf)) ≤ 2 ^ 256 - 1
  · have hm : cmul p (100000 - (tf + nf)) = Except.ok (p * (100000 - (tf + nf))) := by
      unfold cmul; rw [if_pos h3]
    rw [hm]
    simp only [ebind_ok_left]
    simp
  · have hm : cmul p (100000 - (tf + nf)) = Except.error MErr.ArithOverflow := by
      unfold cmul; rw [if_neg h3]
    rw [hm]
    simp only [ebind_err_left]
    simp

/-- The expression `creatorShare` reverts with an overflow when the `uint16` fee sum
overflows, whatever the price. -/
theorem creatorShare_overflow {tf nf : Nat} (h1 : 65535 < tf + nf) (p : Nat) :
    creatorShare tf nf p = Except.error MErr.ArithOverflow := by
  unfold creatorShare
  have hc : cadd16 tf nf = Except.error MErr.ArithOverflow := by
    unfold cadd16; rw [if_neg (by omega)]
  rw [hc]
  rfl

/-- The three-way fee split recovers the price up to at most 2 units of
truncation dust. -/
theorem split_bounds (price tf nf : Nat) (h : tf + nf ≤ 65535) :
    price * tf / 100000 + price * nf / 100000 +
      price * (100000 - (tf + nf)) / 100000 ≤ price ∧
    price ≤ price * tf / 100000 + price * nf / 100000 +
      price * (100000 - (tf + nf)) / 100000 + 2 := by
  have hsum : price * tf + price * nf + price * (100000 - (tf + nf)) = price * 100000 := by
    have hc : tf + (nf + (100000 - (tf + nf))) = 100000 := by omega
    calc price * tf + price * nf + price * (100000 - (tf + nf))
        = price * (tf + (nf + (100000 - (tf + nf)))) := by ring
      _ = price * 100000 := by rw [hc]
  have h1 := Nat.add_div (a := price * tf) (b := price * nf) (c := 100000) (by norm_num)
  have h2 := Nat.add_div (a := price * tf + price * nf)
    (b := price * (100000 - (tf + nf))) (c := 100000) (by norm_num)
  have hq : (price * tf + price * nf + price * (100000 - (tf + nf))) / 100000 = price := by
    rw [hsum]; exact Nat.mul_div_cancel price (by norm_num)
  have h1' : price * tf / 100000 + price * nf / 100000 ≤
      (price * tf + price * nf) / 100000 ∧
      (price * tf + price * nf) / 100000 ≤
        price * tf / 100000 + price * nf / 100000 + 1 := by
    rw [h1]; split <;> omega
  have h2' : (price * tf + price * nf) / 100000 +
        price * (100000 - (tf + nf)) / 100000 ≤
      (price * tf + price * nf + price * (100000 - (tf + nf))) / 100000 ∧
      (price * tf + price * nf + price * (100000 - (tf + nf))) / 100000 ≤
        (price * tf + price * nf) / 100000 +
          price * (100000 - (tf + nf)) / 100000 + 1 := by
    rw [h2]; split <;> omega
  rw [hq] at h2'
  omega

/-- Whether an action is the external mint call. -/
def isMintCall : Action → Bool
  | Action.mintCall _ _ _ => true
  | _ => false

theorem getElem?_append_length {α : Type} (l : List α) (x : α) :
    (l ++ [x])[l.length]? = some x := by
  induction l with
  | nil => rfl
  | cons y ys ih => simp [ih]

/-! ### Concrete fixtures used by witnesses and counterexamples -/

/-- A collaborator environment where every check passes and the collection
supports the royalty interface (receiver address 5). -/
def envFull : ExtEnv :=
  { hasMinterRole := fun _ => true, hasCreatorRole := fun _ => true,
    mintableTokensLeft := fun _ _ => 10,
    supportsRoyaltyInterface := fun _ => true,
    royaltyReceiver := fun _ _ _ => 5 }

/-- Same, but the collection has no royalty interface. -/
def envNoRoyalty : ExtEnv := { envFull with supportsRoyaltyInterface := fun _ => false }

/-- One offer for collection 1 with a single range `[1,10]` at price 100. -/
def offerOne : Offer :=
  { contractAddress := 1, nodeAddress := 2, productIndex := 0,
    tokenRangeStart := [1], tokenRangeEnd := [10], tokensAllowed := [10],
    rangePrice := [100], rangeName := [""] }

/-- Catalog holding exactly `offerOne`; treasury 3, fees 9% / 1%. -/
def stateOne : MarketState :=
  { contractToOfferMap := [(1, 0)], offerCatalog := [offerOne], treasury := 3,
    openSales := 1, treasuryFee := 9000, nodeFee := 1000 }

/-- State `stateOne` after five successful purchases on its only range. -/
def stateAfterBuys : MarketState :=
  { stateOne with offerCatalog := [{ offerOne with tokensAllowed := [5] }] }

/-- Like `stateOne` but the range price is 1 wei. -/
def statePrice1 : MarketState :=
  { stateOne with offerCatalog := [{ offerOne with rangePrice := [1] }] }

/-! ### The claims -/

/-- **C1**: the claim says `addOffer` must succeed for a `collectionAddress`
with no live offer; the code instead compares the stored address at the
reverse-index position against `address(0)` (not against the queried
address), so once any offer exists, `addOffer` for a *different, fresh*
collection also reverts with `OfferAlreadyExists` — even though the
own `contractToOffer` view of the contract reports that collection 2 has no
offer. This theorem exhibits the failing run. -/
theorem C1_addOffer_fresh_collection_rejected :
    addOffer envFull (initMarket 3 9000 1000) 1 0 [1] [10] [100] [("")] 2 =
      Except.ok (stateOne,
        [Action.appendedRangeEvent 1 0 0 0 1 10 100 (""),
         Action.addedOfferEvent 1 0 1 0]) ∧
    contractToOfferView stateOne 2 = Except.error MErr.NoOfferForCollection ∧
    addOffer envFull stateOne 2 0 [11] [20] [100] [("")] 2 =
      Except.error MErr.OfferAlreadyExists := by
  refine ⟨?_, rfl, rfl⟩
  rfl

/-- **C2** (counterexample): for a royalty-supporting purchase at price 1 with
`paidAmount = 1` (fees 9% and 1%), all four disbursed amounts truncate to 0,
so `treasuryAmount + nodeAmount + creatorAmount + refund = 0 ≠ 1 = paidAmount`:
the split does *not* conserve the payment exactly. -/
theorem C2_split_counterexample :
    ∃ s' tr, buyToken envFull statePrice1 7 1 0 0 1 = Except.ok (s', tr) ∧
      transferTotal tr = 0 ∧ transferTotal tr ≠ 1 := by
  refine ⟨{ stateOne with offerCatalog :=
      [{ offerOne with rangePrice := [1], tokensAllowed := [9] }] },
    [Action.transferCreator 5 0, Action.transferRefund 7 0,
     Action.transferTreasury 3 0, Action.transferNode 2 0,
     Action.decrementSupply 0 0, Action.mintCall 7 0 1,
     Action.tokenMintedEvent 7 1 0 0 1], ?_, rfl, by decide⟩
  rfl

/-- **C2 (amended)**: for every successful royalty-supporting purchase, the
four disbursed amounts (creator + refund + treasury + node) never exceed the
payment and fall short of it by at most 2 units — the truncation dust of the
three integer divisions, which stays in the contract. Exact conservation
holds only when the three divisions are exact. -/
theorem C2_split_conservation_dust {env : ExtEnv} {s : MarketState}
    {msgSender msgValue ci ri ti : Nat} {s' : MarketState} {tr : List Action}
    {sel : Offer}
    (hsel : s.offerCatalog[ci]? = some sel)
    (hroyal : env.supportsRoyaltyInterface sel.contractAddress = true)
    (hok : buyToken env s msgSender msgValue ci ri ti = Except.ok (s', tr)) :
    transferTotal tr ≤ msgValue ∧ msgValue ≤ transferTotal tr + 2 := by
  obtain ⟨selE, allowed, startTok, endTok, price, creActs, nos,
    hselE, hne, hri, hA, hpos, hST, hEN, hin1, hin2, hPR, hval,
    hcre, hosc, hs', htr⟩ := buyToken_ok_elim hok
  rw [hsel] at hselE
  cases hselE
  rcases hcre with ⟨nm, camt, hS, hNM, hcamt, hcreq⟩ | ⟨hS, _⟩
  · rw [creatorShare_eq_ok] at hcamt
    obtain ⟨hfee, hbig, hcamtv⟩ := hcamt
    subst hcreq
    subst htr
    have htt : ∀ sold : List Action,
        transferTotal (if allowed - 1 = 0 then
          [Action.soldOutEvent sel.contractAddress ci ri] else []) = 0 := by
      intro _; split <;> simp [transferTotal]
    rw [transferTotal_append, transferTotal_append, transferTotal_append]
    rw [htt []]
    simp only [transferTotal]
    have hb := split_bounds price s.treasuryFee s.nodeFee hfee
    subst hcamtv
    omega
  · rw [hroyal] at hS; cases hS

/-- The range-creation loop preserves the `openSales` bookkeeping invariant:
each created range starts with positive remaining supply and bumps the
counter once. -/
theorem inv_of_loop {oi : Nat} {tuples : List (Nat × Nat × Nat × String)}
    {s s' : MarketState} {acts : List Action}
    (hInv : openSalesInvariant s)
    (h : appendRangesLoop oi tuples s = Except.ok (s', acts)) :
    openSalesInvariant s' := by
  obtain ⟨_, _, _, _, _, hos, hnone, hsome⟩ := appendRangesLoop_ok h
  cases hc : s.offerCatalog[oi]? with
  | none =>
    obtain ⟨htup, hcat⟩ := hnone hc
    unfold openSalesInvariant rangesOpen at hInv ⊢
    rw [hcat, hos, htup]
    simpa using hInv
  | some sel =>
    obtain ⟨sel', hcat, _, _, _, _, _, hta, _, _⟩ := hsome sel hc
    have hpos1 : ∀ x ∈ tuples.map (fun t => t.2.1 - t.1 + 1), 0 < x := by
      intro x hx
      simp only [List.mem_map] at hx
      obtain ⟨t, _, ht⟩ := hx
      omega
    have hcount : offerOpenRanges sel' = offerOpenRanges sel + tuples.length := by
      unfold offerOpenRanges
      rw [hta, countPos_append_pos hpos1, List.length_map]
    have hro := rangesOpen_set hc sel'
    unfold openSalesInvariant rangesOpen at hInv ⊢
    rw [hcat, hos]
    omega

/-- A single `_appendOfferRange` preserves the `openSales` invariant. -/
theorem inv_of_appendInternal {s : MarketState} {oi st en pr : Nat} {nm : String}
    {s' : MarketState} {acts : List Action}
    (hInv : openSalesInvariant s)
    (h : appendOfferRangeInternal s oi st en pr nm = Except.ok (s', acts)) :
    openSalesInvariant s' := by
  obtain ⟨sel, hsel, hle, hs', _⟩ := appendOfferRangeInternal_ok h
  subst hs'
  have hro := rangesOpen_set hsel { sel with
    tokenRangeStart := sel.tokenRangeStart ++ [st],
    tokenRangeEnd := sel.tokenRangeEnd ++ [en],
    rangePrice := sel.rangePrice ++ [pr],
    tokensAllowed := sel.tokensAllowed ++ [en - st + 1],
    rangeName := sel.rangeName ++ [nm] }
  have hcount : offerOpenRanges { sel with
      tokenRangeStart := sel.tokenRangeStart ++ [st],
      tokenRangeEnd := sel.tokenRangeEnd ++ [en],
      rangePrice := sel.rangePrice ++ [pr],
      tokensAllowed := sel.tokensAllowed ++ [en - st + 1],
      rangeName := sel.rangeName ++ [nm] } = offerOpenRanges sel + 1 := by
    unfold offerOpenRanges
    simp only []
    rw [countPos_append_singleton, if_pos (by omega)]
  unfold openSalesInvariant rangesOpen at hInv ⊢
  simp only []
  omega

/-- One purchase applied with revert-on-failure semantics. -/
def buyStep (env : ExtEnv) (s : MarketState) (msgSender msgValue ci ri ti : Nat) :
    MarketState :=
  applyResult (buyToken env s msgSender msgValue ci ri ti) s

/-- **C3** (counterexample): from a reachable state (`stateOne` after five
purchases) whose `openSales` invariant holds, a successful shrinking
`updateOfferRange` takes the remaining supply of the only range to 0 yet leaves
`openSales = 1`, breaking the invariant: the claim that every state-mutating
operation (including `updateOfferRange`) preserves it is false. -/
theorem C3_counterexample :
    openSalesInvariant stateAfterBuys ∧
    buyStep envNoRoyalty
      (buyStep envNoRoyalty
        (buyStep envNoRoyalty
          (buyStep envNoRoyalty
            (buyStep envNoRoyalty stateOne 7 100 0 0 1)
            7 100 0 0 2)
          7 100 0 0 3)
        7 100 0 0 4)
      7 100 0 0 5 = stateAfterBuys ∧
    (∃ s' acts, updateOfferRange envNoRoyalty stateAfterBuys 0 0 1 5 100 ("") =
        Except.ok (s', acts) ∧ ¬ openSalesInvariant s') := by
  refine ⟨rfl, rfl, ?_⟩
  refine ⟨{ stateOne with offerCatalog := [{ offerOne with
      tokenRangeStart := [1], tokenRangeEnd := [5],
      tokensAllowed := [0], rangePrice := [100], rangeName := [("")] }] },
    [Action.updatedOfferEvent 1 0 0 0 100 ("")], rfl, ?_⟩
  intro hc
  exact Nat.one_ne_zero hc

/-- **C3 (amended)**: the invariant "`openSales` equals the number of ranges
with `tokensAllowed > 0`" is preserved by `addOffer`, `appendOfferRange`,
`appendOfferRangeBatch` and `buyToken`; `updateOfferRange` preserves it only
when the recomputed remaining supply is nonzero — it never decrements
`openSales`, so a shrink that zeroes a partially-sold range breaks the
invariant (see the counterexample). -/
theorem C3_openSales_invariant (env : ExtEnv) (s : MarketState)
    (hInv : openSalesInvariant s) :
    (∀ tokenAddress productIndex rs re rp rn nodeAddress s' acts,
      addOffer env s tokenAddress productIndex rs re rp rn nodeAddress =
        Except.ok (s', acts) → openSalesInvariant s') ∧
    (∀ oi st en pr nm s' acts,
      appendOfferRange env s oi st en pr nm = Except.ok (s', acts) →
      openSalesInvariant s') ∧
    (∀ oi sts ens prs nms s' acts,
      appendOfferRangeBatch env s oi sts ens prs nms = Except.ok (s', acts) →
      openSalesInvariant s') ∧
    (∀ msgSender msgValue ci ri ti s' tr,
      buyToken env s msgSender msgValue ci ri ti = Except.ok (s', tr) →
      openSalesInvariant s') ∧
    (∀ oi ri st en pr nm s' acts sel',
      updateOfferRange env s oi ri st en pr nm = Except.ok (s', acts) →
      s'.offerCatalog[oi]? = some sel' →
      sel'.tokensAllowed[ri]? ≠ some 0 →
      openSalesInvariant s') := by
  refine ⟨?_, ?_, ?_, ?_, ?_⟩
  · intro tokenAddress productIndex rs re rp rn nodeAddress s' acts h
    obtain ⟨s2, loopActs, _, _, _, _, _, _, _, hloop, hs', hacts⟩ := addOffer_ok_elim h
    have hInv1 : openSalesInvariant { s with offerCatalog :=
        s.offerCatalog ++ [newOfferRecord tokenAddress nodeAddress productIndex] } := by
      unfold openSalesInvariant rangesOpen at hInv ⊢
      simp only [List.map_append, List.sum_append]
      simp [newOfferRecord, offerOpenRanges, countPos, hInv]
    have hInv2 := inv_of_loop hInv1 hloop
    subst hs'
    exact hInv2
  · intro oi st en pr nm s' acts h
    unfold appendOfferRange at h
    cases hsel : s.offerCatalog[oi]? with
    | none => rw [hsel] at h; cases h
    | some sel =>
      rw [hsel] at h
      simp only [] at h
      rw [ebind_ok] at h
      obtain ⟨u1, hroles, h⟩ := h
      rw [ebind_ok] at h
      obtain ⟨u2, hvr, h⟩ := h
      exact inv_of_appendInternal hInv h
  · intro oi sts ens prs nms s' acts h
    unfold appendOfferRangeBatch at h
    by_cases hlens : sts.length = ens.length ∧ prs.length = sts.length ∧
      nms.length = prs.length
    case neg => simp only [if_neg hlens, ebind_err_left] at h; cases h
    simp only [if_pos hlens, ebind_ok_left] at h
    cases hsel : s.offerCatalog[oi]? with
    | none => rw [hsel] at h; cases h
    | some sel =>
      rw [hsel] at h
      simp only [] at h
      rw [ebind_ok] at h
      obtain ⟨u1, hroles, h⟩ := h
      exact inv_of_loop hInv h
  · intro msgSender msgValue ci ri ti s' tr h
    obtain ⟨sel, allowed, startTok, endTok, price, creActs, nos,
      hsel, hne, hri, hA, hpos, hST, hEN, hin1, hin2, hPR, hval,
      hcre, hosc, hs', htr⟩ := buyToken_ok_elim h
    subst hs'
    have hset := countPos_set hA (allowed - 1)
    rw [if_pos hpos] at hset
    have hro := rangesOpen_set hsel
      { sel with tokensAllowed := sel.tokensAllowed.set ri (allowed - 1) }
    have hproj : offerOpenRanges
        { sel with tokensAllowed := sel.tokensAllowed.set ri (allowed - 1) } =
        countPos (sel.tokensAllowed.set ri (allowed - 1)) := rfl
    have hprojsel : offerOpenRanges sel = countPos sel.tokensAllowed := rfl
    rw [hproj, hprojsel] at hro
    have hmap : (s.offerCatalog.map offerOpenRanges)[ci]? =
        some (offerOpenRanges sel) := by
      rw [getElem?_map_comm, hsel]; rfl
    have hge := le_sum_of_lookup hmap
    rw [hprojsel] at hge
    have hcpos := countPos_pos_of_mem hA hpos
    have hInv' : s.openSales = (s.offerCatalog.map offerOpenRanges).sum := hInv
    show nos = ((s.offerCatalog.set ci
      { sel with tokensAllowed := sel.tokensAllowed.set ri (allowed - 1) }).map
        offerOpenRanges).sum
    rcases hosc with ⟨hz, h1, h2⟩ | ⟨hz, h2⟩
    · have hzif : (if 0 < allowed - 1 then 1 else 0) = 0 := by rw [hz]; simp
      rw [hzif] at hset
      omega
    · rw [if_pos (Nat.pos_of_ne_zero hz)] at hset
      omega
  · intro oi ri st en pr nm s' acts sel' h hq hnz
    obtain ⟨sel, oldEnd, oldStart, oldAllowed, priceOld, nameOld,
      hsel, hoE, hoS, hoA, hPr, hNm, hb1, hb2, hst, _, _, _, _, _, hdel,
      hs', hacts⟩ := updateOfferRange_ok_elim h
    subst hs'
    have hlen : oi < s.offerCatalog.length := lt_length_of_getElem? hsel
    simp only [] at hq
    rw [getElem?_set_self _ hlen] at hq
    injection hq with hq
    subst hq
    have hriA : ri < sel.tokensAllowed.length := lt_length_of_getElem? hoA
    simp only [] at hnz
    rw [getElem?_set_self _ hriA] at hnz
    have hnz' : oldAllowed - ((oldEnd - oldStart) - (en - st)) ≠ 0 := by
      intro hc; exact hnz (by rw [hc])
    have hset := countPos_set hoA (oldAllowed - ((oldEnd - oldStart) - (en - st)))
    rw [if_pos (by omega : 0 < oldAllowed),
      if_pos (Nat.pos_of_ne_zero hnz')] at hset
    have hro := rangesOpen_set hsel { sel with
      tokensAllowed := sel.tokensAllowed.set ri
        (oldAllowed - ((oldEnd - oldStart) - (en - st))),
      tokenRangeStart := sel.tokenRangeStart.set ri st,
      tokenRangeEnd := sel.tokenRangeEnd.set ri en,
      rangePrice := sel.rangePrice.set ri pr,
      rangeName := sel.rangeName.set ri nm }
    have hproj : offerOpenRanges { sel with
        tokensAllowed := sel.tokensAllowed.set ri
          (oldAllowed - ((oldEnd - oldStart) - (en - st))),
        tokenRangeStart := sel.tokenRangeStart.set ri st,
        tokenRangeEnd := sel.tokenRangeEnd.set ri en,
        rangePrice := sel.rangePrice.set ri pr,
        rangeName := sel.rangeName.set ri nm } =
        countPos (sel.tokensAllowed.set ri
          (oldAllowed - ((oldEnd - oldStart) - (en - st)))) := rfl
    have hprojsel : offerOpenRanges sel = countPos sel.tokensAllowed := rfl
    rw [hproj, hprojsel] at hro
    have hInv' : s.openSales = (s.offerCatalog.map offerOpenRanges).sum := hInv
    show s.openSales = ((s.offerCatalog.set oi { sel with
      tokensAllowed := sel.tokensAllowed.set ri
        (oldAllowed - ((oldEnd - oldStart) - (en - st))),
      tokenRangeStart := sel.tokenRangeStart.set ri st,
      tokenRangeEnd := sel.tokenRangeEnd.set ri en,
      rangePrice := sel.rangePrice.set ri pr,
      rangeName := sel.rangeName.set ri nm }).map offerOpenRanges).sum
    omega

/-- State `stateOne` with only the last token of the range left. -/
def stateLastOne : MarketState :=
  { stateOne with offerCatalog := [{ offerOne with tokensAllowed := [1] }] }

/-- State `stateLastOne` after buying the last token: range exhausted, `openSales` 0. -/
def stateSoldOut : MarketState :=
  { stateOne with
    offerCatalog := [{ offerOne with tokensAllowed := [0] }]
    openSales := 0 }

/-- Witness for C3: the amended invariant theorem applied to a concrete
purchase on `stateOne`. -/
theorem C3_witness :
    openSalesInvariant
      { stateOne with offerCatalog := [{ offerOne with tokensAllowed := [9] }] } :=
  (C3_openSales_invariant envNoRoyalty stateOne rfl).2.2.2.1 7 100 0 0 5
    { stateOne with offerCatalog := [{ offerOne with tokensAllowed := [9] }] }
    [Action.transferRefund 7 0, Action.transferTreasury 3 9,
     Action.transferNode 2 1, Action.decrementSupply 0 0,
     Action.mintCall 7 0 5, Action.tokenMintedEvent 7 1 0 0 5]
    rfl

/-- **C4**: in every successful `buyToken` the effect trace decomposes as
transfers, then the supply decrement, then (exactly when the decrement
reaches 0) the `SoldOut` event, then the external mint call and the
`TokenMinted` event: the decrement strictly precedes the mint call, no mint
call occurs before it, and at a zero-crossing `openSales` is decremented and
`SoldOut` is emitted before the mint call. -/
theorem C4_decrement_before_mint {env : ExtEnv} {s : MarketState}
    {msgSender msgValue ci ri ti : Nat} {s' : MarketState} {tr : List Action}
    (h : buyToken env s msgSender msgValue ci ri ti = Except.ok (s', tr)) :
    ∃ sel pre mid,
      s.offerCatalog[ci]? = some sel ∧
      tr = pre ++ [Action.decrementSupply ci ri] ++ mid ++
        [Action.mintCall msgSender sel.productIndex ti,
         Action.tokenMintedEvent msgSender sel.contractAddress ci ri ti] ∧
      (∀ a ∈ pre, isMintCall a = false) ∧
      (∀ a ∈ mid, isMintCall a = false) ∧
      (∀ sel', s'.offerCatalog[ci]? = some sel' →
        sel'.tokensAllowed[ri]? = some 0 →
        mid = [Action.soldOutEvent sel.contractAddress ci ri] ∧
        s'.openSales + 1 = s.openSales) := by
  obtain ⟨sel, allowed, startTok, endTok, price, creActs, nos,
    hsel, hne, hri, hA, hpos, hST, hEN, hin1, hin2, hPR, hval,
    hcre, hosc, hs', htr⟩ := buyToken_ok_elim h
  refine ⟨sel,
    creActs ++ [Action.transferRefund msgSender (msgValue - price),
      Action.transferTreasury s.treasury (price * s.treasuryFee / 100000),
      Action.transferNode sel.nodeAddress (price * s.nodeFee / 100000)],
    (if allowed - 1 = 0 then [Action.soldOutEvent sel.contractAddress ci ri] else []),
    hsel, ?_, ?_, ?_, ?_⟩
  · subst htr; simp [List.append_assoc]
  · intro a ha
    rw [List.mem_append] at ha
    rcases ha with hc | ht
    · rcases hcre with ⟨nm, camt, hS, hNM, hcamt, hceq⟩ | ⟨hS, hceq⟩ <;> subst hceq
      · simp only [List.mem_singleton] at hc; subst hc; rfl
      · simp at hc
    · simp only [List.mem_cons, List.not_mem_nil, or_false] at ht
      rcases ht with h1 | h1 | h1 <;> subst h1 <;> rfl
  · intro a ha
    by_cases hz : allowed - 1 = 0
    · rw [if_pos hz] at ha
      simp only [List.mem_singleton] at ha
      subst ha; rfl
    · rw [if_neg hz] at ha
      simp at ha
  · intro sel2 hq hq0
    subst hs'
    simp only [] at hq
    have hlen : ci < s.offerCatalog.length := lt_length_of_getElem? hsel
    rw [getElem?_set_self _ hlen] at hq
    injection hq with hq
    subst hq
    simp only [] at hq0
    rw [getElem?_set_self _ hri] at hq0
    injection hq0 with hq0
    rcases hosc with ⟨hz, h1, h2⟩ | ⟨hz, h2⟩
    · refine ⟨by rw [if_pos hz], ?_⟩
      show nos + 1 = s.openSales
      omega
    · exact absurd hq0 hz

/-- Witness for C4: the ordering theorem applied to the purchase of the last
token of a range (so the sold-out branch is exercised). -/
theorem C4_witness :
    ∃ sel pre mid,
      stateLastOne.offerCatalog[0]? = some sel ∧
      [Action.transferRefund 7 0, Action.transferTreasury 3 9,
       Action.transferNode 2 1, Action.decrementSupply 0 0,
       Action.soldOutEvent 1 0 0, Action.mintCall 7 0 5,
       Action.tokenMintedEvent 7 1 0 0 5] =
        pre ++ [Action.decrementSupply 0 0] ++ mid ++
        [Action.mintCall 7 sel.productIndex 5,
         Action.tokenMintedEvent 7 sel.contractAddress 0 0 5] ∧
      (∀ a ∈ pre, isMintCall a = false) ∧
      (∀ a ∈ mid, isMintCall a = false) ∧
      (∀ sel', stateSoldOut.offerCatalog[0]? = some sel' →
        sel'.tokensAllowed[0]? = some 0 →
        mid = [Action.soldOutEvent sel.contractAddress 0 0] ∧
        stateSoldOut.openSales + 1 = stateLastOne.openSales) :=
  @C4_decrement_before_mint envNoRoyalty stateLastOne 7 100 0 0 5
    stateSoldOut
    [Action.transferRefund 7 0, Action.transferTreasury 3 9,
     Action.transferNode 2 1, Action.decrementSupply 0 0,
     Action.soldOutEvent 1 0 0, Action.mintCall 7 0 5,
     Action.tokenMintedEvent 7 1 0 0 5]
    rfl

/-- **C5**: `updateOfferRange` fails with `RangeExpansionNotAllowed` unless
`newEnd ≤ oldEnd ∧ newStart ≥ oldStart`; every failure leaves the state
unchanged (revert semantics); and on success the new bounds are set, the
remaining supply is recomputed by subtracting the bound-shrink delta, price
and name are overwritten unconditionally, and the update event carries the
post-update remaining supply. -/
theorem C5_updateOfferRange_spec (env : ExtEnv) (s : MarketState)
    (oi ri st en pr : Nat) (nm : String) (sel : Offer) (oldStart oldEnd : Nat)
    (hsel : s.offerCatalog[oi]? = some sel)
    (hoE : sel.tokenRangeEnd[ri]? = some oldEnd)
    (hoS : sel.tokenRangeStart[ri]? = some oldStart) :
    (¬ (en ≤ oldEnd ∧ oldStart ≤ st) →
      updateOfferRange env s oi ri st en pr nm =
        Except.error MErr.RangeExpansionNotAllowed) ∧
    (∀ e, updateOfferRange env s oi ri st en pr nm = Except.error e →
      applyResult (updateOfferRange env s oi ri st en pr nm) s = s) ∧
    (∀ s' acts, updateOfferRange env s oi ri st en pr nm = Except.ok (s', acts) →
      en ≤ oldEnd ∧ oldStart ≤ st ∧
      ∃ sel' oldAllowed, sel.tokensAllowed[ri]? = some oldAllowed ∧
        s'.offerCatalog[oi]? = some sel' ∧
        sel'.tokenRangeStart[ri]? = some st ∧
        sel'.tokenRangeEnd[ri]? = some en ∧
        sel'.tokensAllowed[ri]? =
          some (oldAllowed - ((oldEnd - oldStart) - (en - st))) ∧
        sel'.rangePrice[ri]? = some pr ∧
        sel'.rangeName[ri]? = some nm ∧
        acts = [Action.updatedOfferEvent sel.contractAddress oi ri
          (oldAllowed - ((oldEnd - oldStart) - (en - st))) pr nm]) := by
  refine ⟨?_, ?_, ?_⟩
  · intro hb
    unfold updateOfferRange
    rw [hsel]
    simp [hoE, hoS, hb, ebind_err_left]
  · intro e he
    unfold applyResult
    rw [he]
  · intro s' acts h
    obtain ⟨selE, oldEndE, oldStartE, oldAllowed, priceOld, nameOld,
      hselE, hoEE, hoSE, hoA, hPr, hNm, hb1, hb2, hst, _, _, _, _, _, hdel,
      hs', hacts⟩ := updateOfferRange_ok_elim h
    rw [hsel] at hselE
    injection hselE with hselE
    subst hselE
    rw [hoE] at hoEE
    injection hoEE with hoEE
    subst hoEE
    rw [hoS] at hoSE
    injection hoSE with hoSE
    subst hoSE
    subst hs'
    have hlen : oi < s.offerCatalog.length := lt_length_of_getElem? hsel
    refine ⟨hb1, hb2,
      { sel with
        tokensAllowed := sel.tokensAllowed.set ri
          (oldAllowed - ((oldEnd - oldStart) - (en - st))),
        tokenRangeStart := sel.tokenRangeStart.set ri st,
        tokenRangeEnd := sel.tokenRangeEnd.set ri en,
        rangePrice := sel.rangePrice.set ri pr,
        rangeName := sel.rangeName.set ri nm },
      oldAllowed, hoA, ?_, ?_, ?_, ?_, ?_, ?_, hacts⟩
    · simp only []
      exact getElem?_set_self _ hlen
    · exact getElem?_set_self _ (lt_length_of_getElem? hoS)
    · exact getElem?_set_self _ (lt_length_of_getElem? hoE)
    · exact getElem?_set_self _ (lt_length_of_getElem? hoA)
    · exact getElem?_set_self _ (lt_length_of_getElem? hPr)
    · exact getElem?_set_self _ (lt_length_of_getElem? hNm)

/-- Witness for C5: an attempted expansion of the `stateOne` range `[1,10]` to
`[1,11]` fails with `RangeExpansionNotAllowed` (Scenario E). -/
theorem C5_witness :
    updateOfferRange envFull stateOne 0 0 1 11 50 ("") =
      Except.error MErr.RangeExpansionNotAllowed :=
  (C5_updateOfferRange_spec envFull stateOne 0 0 1 11 50 ("") offerOne 1 10
    rfl rfl rfl).1 (by decide)

/-- **C6**: a range with remaining supply 0 rejects every purchase with
`RangeSoldOut`; every successful purchase finds remaining supply at least 1
and decrements it by exactly 1 (it is a `Nat`, hence never below 0). -/
theorem C6_supply_safety (env : ExtEnv) (s : MarketState)
    (msgSender msgValue ci ri ti : Nat) (sel : Offer)
    (hsel : s.offerCatalog[ci]? = some sel) :
    (sel.contractAddress ≠ 0 → ri < sel.tokensAllowed.length →
      sel.tokensAllowed[ri]? = some 0 →
      buyToken env s msgSender msgValue ci ri ti =
        Except.error MErr.RangeSoldOut) ∧
    (∀ s' tr, buyToken env s msgSender msgValue ci ri ti = Except.ok (s', tr) →
      ∃ allowed sel', sel.tokensAllowed[ri]? = some allowed ∧ 1 ≤ allowed ∧
        s'.offerCatalog[ci]? = some sel' ∧
        sel'.tokensAllowed[ri]? = some (allowed - 1)) := by
  constructor
  · intro hne hri hA
    exact bt_err_rangeSoldOut hsel hne hri hA
  · intro s' tr h
    obtain ⟨selE, allowed, startTok, endTok, price, creActs, nos,
      hselE, hne, hri, hA, hpos, hST, hEN, hin1, hin2, hPR, hval,
      hcre, hosc, hs', htr⟩ := buyToken_ok_elim h
    rw [hsel] at hselE
    injection hselE with hselE
    subst hselE
    subst hs'
    have hlen : ci < s.offerCatalog.length := lt_length_of_getElem? hsel
    refine ⟨allowed,
      { sel with tokensAllowed := sel.tokensAllowed.set ri (allowed - 1) },
      hA, hpos, ?_, ?_⟩
    · simp only []
      exact getElem?_set_self _ hlen
    · exact getElem?_set_self _ hri

/-- Witness for C6: the sold-out range of `stateSoldOut` rejects a purchase
with `RangeSoldOut`. -/
theorem C6_witness :
    buyToken envFull stateSoldOut 7 100 0 0 5 = Except.error MErr.RangeSoldOut :=
  (C6_supply_safety envFull stateSoldOut 7 100 0 0 5
    { offerOne with tokensAllowed := [0] } rfl).1 (by decide) (by decide) rfl

/-- **C7**: the validations of `buyToken` fire in order with their specific
errors — `InvalidOffer` for a zero stored collection address, `InvalidRange`
for an out-of-bounds range index, `RangeSoldOut` for an exhausted range,
`TokenOutsideRange` for an identifier outside `[start, end]`,
`InsufficientFunds` for underpayment — and any failure leaves the catalog
unchanged (revert semantics). -/
theorem C7_buy_validation (env : ExtEnv) (s : MarketState)
    (msgSender msgValue ci ri ti : Nat) (sel : Offer)
    (hsel : s.offerCatalog[ci]? = some sel) :
    (sel.contractAddress = 0 →
      buyToken env s msgSender msgValue ci ri ti =
        Except.error MErr.InvalidOffer) ∧
    (sel.contractAddress ≠ 0 → sel.tokensAllowed.length ≤ ri →
      buyToken env s msgSender msgValue ci ri ti =
        Except.error MErr.InvalidRange) ∧
    (sel.contractAddress ≠ 0 → ri < sel.tokensAllowed.length →
      sel.tokensAllowed[ri]? = some 0 →
      buyToken env s msgSender msgValue ci ri ti =
        Except.error MErr.RangeSoldOut) ∧
    (∀ allowed startTok endTok, sel.contractAddress ≠ 0 →
      ri < sel.tokensAllowed.length → sel.tokensAllowed[ri]? = some allowed →
      0 < allowed → sel.tokenRangeStart[ri]? = some startTok →
      sel.tokenRangeEnd[ri]? = some endTok →
      ¬ (startTok ≤ ti ∧ ti ≤ endTok) →
      buyToken env s msgSender msgValue ci ri ti =
        Except.error MErr.TokenOutsideRange) ∧
    (∀ allowed startTok endTok price, sel.contractAddress ≠ 0 →
      ri < sel.tokensAllowed.length → sel.tokensAllowed[ri]? = some allowed →
      0 < allowed → sel.tokenRangeStart[ri]? = some startTok →
      sel.tokenRangeEnd[ri]? = some endTok →
      startTok ≤ ti ∧ ti ≤ endTok →
      sel.rangePrice[ri]? = some price → msgValue < price →
      buyToken env s msgSender msgValue ci ri ti =
        Except.error MErr.InsufficientFunds) ∧
    (∀ e, buyToken env s msgSender msgValue ci ri ti = Except.error e →
      applyResult (buyToken env s msgSender msgValue ci ri ti) s = s) := by
  refine ⟨?_, ?_, ?_, ?_, ?_, ?_⟩
  · intro h0
    exact bt_err_invalidOffer hsel h0
  · intro hne hri
    exact bt_err_invalidRange hsel hne hri
  · intro hne hri hA
    exact bt_err_rangeSoldOut hsel hne hri hA
  · intro allowed startTok endTok hne hri hA hpos hST hEN hout
    exact bt_err_tokenOutsideRange hsel hne hri hA hpos hST hEN hout
  · intro allowed startTok endTok price hne hri hA hpos hST hEN hin hPR hval
    exact bt_err_insufficientFunds hsel hne hri hA hpos hST hEN hin hPR hval
  · intro e he
    unfold applyResult
    rw [he]

/-- Witness for C7: buying token 11 from the `stateOne` range `[1,10]` fails
with `TokenOutsideRange` (Scenario C). -/
theorem C7_witness :
    buyToken envFull stateOne 7 100 0 0 11 = Except.error MErr.TokenOutsideRange :=
  (C7_buy_validation envFull stateOne 7 100 0 0 11 offerOne rfl).2.2.2.1
    10 1 10 (by decide) (by decide) rfl (by decide) rfl rfl (by decide)

/-- Witness for the amended C2: a concrete royalty purchase at price 100
paying 150 (here the split is exact: 90 + 50 + 9 + 1 = 150). -/
theorem C2_witness :
    transferTotal
      [Action.transferCreator 5 90, Action.transferRefund 7 50,
       Action.transferTreasury 3 9, Action.transferNode 2 1,
       Action.decrementSupply 0 0, Action.mintCall 7 0 5,
       Action.tokenMintedEvent 7 1 0 0 5] ≤ 150 ∧
    150 ≤ transferTotal
      [Action.transferCreator 5 90, Action.transferRefund 7 50,
       Action.transferTreasury 3 9, Action.transferNode 2 1,
       Action.decrementSupply 0 0, Action.mintCall 7 0 5,
       Action.tokenMintedEvent 7 1 0 0 5] + 2 :=
  @C2_split_conservation_dust envFull stateOne 7 150 0 0 5
    { stateOne with offerCatalog := [{ offerOne with tokensAllowed := [9] }] }
    [Action.transferCreator 5 90, Action.transferRefund 7 50,
     Action.transferTreasury 3 9, Action.transferNode 2 1,
     Action.decrementSupply 0 0, Action.mintCall 7 0 5,
     Action.tokenMintedEvent 7 1 0 0 5]
    offerOne rfl rfl rfl

/-- **C8**: in a successful purchase a creator payment is made if and only if
the collection supports the royalty interface; it equals
`price * (100000 - (treasuryFee + nodeFee)) / 100000` and goes to the
royalty receiver. When the interface is absent no creator payment is made
and the outgoing transfers are exactly refund + treasury + node shares (the
creator share stays with the contract). -/
theorem C8_creator_payment_iff_royalty {env : ExtEnv} {s : MarketState}
    {msgSender msgValue ci ri ti : Nat} {s' : MarketState} {tr : List Action}
    {sel : Offer} {price : Nat}
    (hsel : s.offerCatalog[ci]? = some sel)
    (hPR : sel.rangePrice[ri]? = some price)
    (hok : buyToken env s msgSender msgValue ci ri ti = Except.ok (s', tr)) :
    (env.supportsRoyaltyInterface sel.contractAddress = true →
      ∃ nm, sel.rangeName[ri]? = some nm ∧
        creatorTransfers tr = [(env.royaltyReceiver sel.contractAddress price nm,
          price * (100000 - (s.treasuryFee + s.nodeFee)) / 100000)]) ∧
    (env.supportsRoyaltyInterface sel.contractAddress = false →
      creatorTransfers tr = [] ∧
      transferTotal tr = (msgValue - price) +
        price * s.treasuryFee / 100000 + price * s.nodeFee / 100000) := by
  obtain ⟨selE, allowed, startTok, endTok, priceE, creActs, nos,
    hselE, hne, hri, hA, hpos, hST, hEN, hin1, hin2, hPRE, hval,
    hcre, hosc, hs', htr⟩ := buyToken_ok_elim hok
  rw [hsel] at hselE
  injection hselE with hselE
  subst hselE
  rw [hPR] at hPRE
  injection hPRE with hPRE
  subst hPRE
  subst htr
  have hcsold : creatorTransfers (if allowed - 1 = 0 then
      [Action.soldOutEvent sel.contractAddress ci ri] else []) = [] := by
    split <;> simp [creatorTransfers]
  have htsold : transferTotal (if allowed - 1 = 0 then
      [Action.soldOutEvent sel.contractAddress ci ri] else []) = 0 := by
    split <;> simp [transferTotal]
  constructor
  · intro hS
    rcases hcre with ⟨nm, camt, _, hNM, hcamt, hceq⟩ | ⟨hS', _⟩
    · subst hceq
      rw [creatorShare_eq_ok] at hcamt
      obtain ⟨hfee, hbig, hcamtv⟩ := hcamt
      subst hcamtv
      refine ⟨nm, hNM, ?_⟩
      rw [creatorTransfers_append, creatorTransfers_append,
        creatorTransfers_append, hcsold]
      simp [creatorTransfers]
    · rw [hS] at hS'; cases hS'
  · intro hS
    rcases hcre with ⟨nm, camt, hS', hNM, hcamt, hceq⟩ | ⟨hS', hceq⟩
    · rw [hS] at hS'; cases hS'
    · subst hceq
      constructor
      · rw [creatorTransfers_append, creatorTransfers_append,
          creatorTransfers_append, hcsold]
        simp [creatorTransfers]
      · rw [transferTotal_append, transferTotal_append,
          transferTotal_append, htsold]
        simp [transferTotal]
        omega

/-- Witness for C8: the royalty purchase of `C2_witness` pays the creator
exactly `100 * (100000 - 10000) / 100000 = 90`. -/
theorem C8_witness :
    ∃ nm, offerOne.rangeName[0]? = some nm ∧
      creatorTransfers
        [Action.transferCreator 5 90, Action.transferRefund 7 50,
         Action.transferTreasury 3 9, Action.transferNode 2 1,
         Action.decrementSupply 0 0, Action.mintCall 7 0 5,
         Action.tokenMintedEvent 7 1 0 0 5] =
        [(envFull.royaltyReceiver offerOne.contractAddress 100 nm,
          100 * (100000 - (stateOne.treasuryFee + stateOne.nodeFee)) / 100000)] :=
  (@C8_creator_payment_iff_royalty envFull stateOne 7 150 0 0 5
    { stateOne with offerCatalog := [{ offerOne with tokensAllowed := [9] }] }
    [Action.transferCreator 5 90, Action.transferRefund 7 50,
     Action.transferTreasury 3 9, Action.transferNode 2 1,
     Action.decrementSupply 0 0, Action.mintCall 7 0 5,
     Action.tokenMintedEvent 7 1 0 0 5]
    offerOne 100 rfl rfl rfl).1 rfl

/-- **C9**: every range created by `addOffer`, `appendOfferRange` or
`appendOfferRangeBatch` starts with `tokensAllowed = end - start + 1`, under
the validated precondition `start < end`; a pair with `start ≥ end` is
rejected with `InvalidRangeBounds`, and a rejected call creates no range
(revert semantics). -/
theorem C9_created_ranges_supply :
    (∀ (env : ExtEnv) (s : MarketState) (oi st en pr : Nat) (nm : String)
        (sel : Offer),
      s.offerCatalog[oi]? = some sel →
      env.hasMinterRole sel.contractAddress = true →
      env.hasCreatorRole sel.contractAddress = true →
      en ≤ st →
      appendOfferRange env s oi st en pr nm =
        Except.error MErr.InvalidRangeBounds) ∧
    (∀ (env : ExtEnv) (s : MarketState) (oi st en pr : Nat) (nm : String)
        (s' : MarketState) (acts : List Action),
      appendOfferRange env s oi st en pr nm = Except.ok (s', acts) →
      ∃ sel sel', s.offerCatalog[oi]? = some sel ∧ st < en ∧
        s'.offerCatalog[oi]? = some sel' ∧
        sel'.tokensAllowed = sel.tokensAllowed ++ [en - st + 1]) ∧
    (∀ (env : ExtEnv) (s : MarketState) (tokenAddress productIndex nodeAddress : Nat)
        (rs re rp : List Nat) (rn : List String)
        (s' : MarketState) (acts : List Action),
      addOffer env s tokenAddress productIndex rs re rp rn nodeAddress =
        Except.ok (s', acts) →
      ∃ selN, s'.offerCatalog[s.offerCatalog.length]? = some selN ∧
        selN.tokensAllowed = (zip4 rs re rp rn).map (fun t => t.2.1 - t.1 + 1) ∧
        ∀ t ∈ zip4 rs re rp rn, t.1 < t.2.1) ∧
    (∀ (env : ExtEnv) (s : MarketState) (oi : Nat)
        (sts ens prs : List Nat) (nms : List String)
        (s' : MarketState) (acts : List Action),
      appendOfferRangeBatch env s oi sts ens prs nms = Except.ok (s', acts) →
      ∃ sel sel', s.offerCatalog[oi]? = some sel ∧
        s'.offerCatalog[oi]? = some sel' ∧
        sel'.tokensAllowed = sel.tokensAllowed ++
          (zip4 sts ens prs nms).map (fun t => t.2.1 - t.1 + 1) ∧
        ∀ t ∈ zip4 sts ens prs nms, t.1 < t.2.1) ∧
    (∀ (env : ExtEnv) (s : MarketState) (oi st en pr : Nat) (nm : String)
        (e : MErr),
      appendOfferRange env s oi st en pr nm = Except.error e →
      applyResult (appendOfferRange env s oi st en pr nm) s = s) := by
  refine ⟨?_, ?_, ?_, ?_, ?_⟩
  · intro env s oi st en pr nm sel hsel hm hc hge
    unfold appendOfferRange
    rw [hsel]
    simp [validateRoles, hm, hc, validateRangeInfo, Nat.not_lt.mpr hge,
      ebind_ok_left, ebind_err_left]
  · intro env s oi st en pr nm s' acts h
    unfold appendOfferRange at h
    cases hsel : s.offerCatalog[oi]? with
    | none => rw [hsel] at h; cases h
    | some sel =>
      rw [hsel] at h
      simp only [] at h
      rw [ebind_ok] at h
      obtain ⟨u1, hroles, h⟩ := h
      rw [ebind_ok] at h
      obtain ⟨u2, hvr, h⟩ := h
      rw [validateRangeInfo_ok] at hvr
      obtain ⟨selI, hselI, hle, hs', hacts⟩ := appendOfferRangeInternal_ok h
      rw [hsel] at hselI
      injection hselI with hselI
      subst hselI
      subst hs'
      have hlen : oi < s.offerCatalog.length := lt_length_of_getElem? hsel
      refine ⟨sel, { sel with
        tokenRangeStart := sel.tokenRangeStart ++ [st],
        tokenRangeEnd := sel.tokenRangeEnd ++ [en],
        rangePrice := sel.rangePrice ++ [pr],
        tokensAllowed := sel.tokensAllowed ++ [en - st + 1],
        rangeName := sel.rangeName ++ [nm] }, rfl, hvr, ?_, rfl⟩
      simp only []
      exact getElem?_set_self _ hlen
  · intro env s tokenAddress productIndex nodeAddress rs re rp rn s' acts h
    obtain ⟨s2, loopActs, _, _, _, _, _, _, _, hloop, hs', hacts⟩ :=
      addOffer_ok_elim h
    have hidx : (s.offerCatalog ++
        [newOfferRecord tokenAddress nodeAddress productIndex]).length - 1 =
        s.offerCatalog.length := by simp
    rw [hidx] at hloop
    obtain ⟨hvalid, _, _, _, _, _, _, hsome⟩ := appendRangesLoop_ok hloop
    have hbase : ({ s with offerCatalog := s.offerCatalog ++
        [newOfferRecord tokenAddress nodeAddress productIndex] } :
          MarketState).offerCatalog[s.offerCatalog.length]? =
        some (newOfferRecord tokenAddress nodeAddress productIndex) := by
      simp only []
      exact getElem?_append_length _ _
    obtain ⟨sel', hcat2, _, _, _, _, _, hta, _, _⟩ := hsome _ hbase
    subst hs'
    refine ⟨sel', ?_, ?_, hvalid⟩
    · simp only []
      rw [hcat2]
      simp only []
      refine getElem?_set_self _ ?_
      simp
    · rw [hta]
      simp [newOfferRecord]
  · intro env s oi sts ens prs nms s' acts h
    unfold appendOfferRangeBatch at h
    by_cases hlens : sts.length = ens.length ∧ prs.length = sts.length ∧
      nms.length = prs.length
    case neg => simp only [if_neg hlens, ebind_err_left] at h; cases h
    simp only [if_pos hlens, ebind_ok_left] at h
    cases hsel : s.offerCatalog[oi]? with
    | none => rw [hsel] at h; cases h
    | some sel =>
      rw [hsel] at h
      simp only [] at h
      rw [ebind_ok] at h
      obtain ⟨u1, hroles, h⟩ := h
      obtain ⟨hvalid, _, _, _, _, _, _, hsome⟩ := appendRangesLoop_ok h
      obtain ⟨sel', hcat2, _, _, _, _, _, hta, _, _⟩ := hsome sel hsel
      have hlen : oi < s.offerCatalog.length := lt_length_of_getElem? hsel
      refine ⟨sel, sel', rfl, ?_, hta, hvalid⟩
      rw [hcat2]
      exact getElem?_set_self _ hlen
  · intro env s oi st en pr nm e he
    unfold applyResult
    rw [he]

/-- Witness for C9: appending the inverted range `[9,3]` to `stateOne` fails
with `InvalidRangeBounds`. -/
theorem C9_witness :
    appendOfferRange envFull stateOne 0 9 3 50 ("") =
      Except.error MErr.InvalidRangeBounds :=
  C9_created_ranges_supply.1 envFull stateOne 0 9 3 50 ("") offerOne
    rfl rfl rfl (by decide)

/-- State `stateOne` with a fee configuration whose `uint16` sum overflows
(40000 + 30000 = 70000 > 65535, each individually representable). -/
def stateOverflow : MarketState :=
  { stateOne with treasuryFee := 40000, nodeFee := 30000 }

/-- **C10**: on a royalty-supporting purchase that passes all validations,
the `uint16` addition `treasuryFee + nodeFee` reverts with an arithmetic
overflow whenever the sum exceeds 65535 (even though each fee is
individually representable), and the whole purchase fails; conversely when
the sum fits in 16 bits it is below 100000, so the creator-share
subtraction `100000 - (treasuryFee + nodeFee)` never underflows. -/
theorem C10_fee_overflow {env : ExtEnv} {s : MarketState}
    {msgSender msgValue ci ri ti : Nat} {sel : Offer}
    {allowed startTok endTok price : Nat} {nm : String}
    (hsel : s.offerCatalog[ci]? = some sel)
    (hne : sel.contractAddress ≠ 0)
    (hri : ri < sel.tokensAllowed.length)
    (hA : sel.tokensAllowed[ri]? = some allowed)
    (hpos : 0 < allowed)
    (hST : sel.tokenRangeStart[ri]? = some startTok)
    (hEN : sel.tokenRangeEnd[ri]? = some endTok)
    (hin : startTok ≤ ti ∧ ti ≤ endTok)
    (hPR : sel.rangePrice[ri]? = some price)
    (hval : price ≤ msgValue)
    (hS : env.supportsRoyaltyInterface sel.contractAddress = true)
    (hNM : sel.rangeName[ri]? = some nm)
    (_htf : s.treasuryFee ≤ 65535) (_hnf : s.nodeFee ≤ 65535) :
    (65535 < s.treasuryFee + s.nodeFee →
      creatorShare s.treasuryFee s.nodeFee price =
        Except.error MErr.ArithOverflow ∧
      buyToken env s msgSender msgValue ci ri ti =
        Except.error MErr.ArithOverflow) ∧
    (s.treasuryFee + s.nodeFee ≤ 65535 →
      csub 100000 (s.treasuryFee + s.nodeFee) =
        Except.ok (100000 - (s.treasuryFee + s.nodeFee)) ∧
      ∀ p, creatorShare s.treasuryFee s.nodeFee p ≠
        Except.error MErr.ArithUnderflow) := by
  constructor
  · intro hover
    have hcs := creatorShare_overflow hover price
    refine ⟨hcs, ?_⟩
    unfold buyToken
    rw [hsel]
    simp [hne, hri, hA, hpos, hST, hEN, hin.1, hin.2, hPR, hval, hS, hNM,
      hcs, ebind_ok_left, ebind_err_left]
  · intro hle
    refine ⟨?_, creatorShare_no_underflow hle⟩
    unfold csub
    rw [if_pos (by omega)]

/-- Witness for C10: with fees 40000 and 30000 a royalty purchase on
`stateOverflow` reverts with the arithmetic overflow. -/
theorem C10_witness :
    buyToken envFull stateOverflow 7 100 0 0 5 =
      Except.error MErr.ArithOverflow :=
  ((@C10_fee_overflow envFull stateOverflow 7 100 0 0 5 offerOne 10 1 10 100 ("")
    rfl (by decide) (by decide) rfl (by decide) rfl rfl (by decide) rfl
    (by decide) rfl rfl (by decide) (by decide)).1 (by decide)).2

end MinterMarketplace
